import Mathlib

/-
Verification development for the command-resolution core:
the command-set merge algebra (src/commands/cmdset.py) and the
command tokenizer (src/commands/cmdparser.py).

Modelling conventions:
* Command descriptors are external to the two source files.
  Modelled from the spec: a descriptor exposes a string `key` and two
  descriptors compare equal exactly when their keys are equal.  Python 2
  instances keep the default identity hash even when `__eq__` is
  overridden, so `list(set(...))` de-duplicates by object identity, not
  by key; we model object identity with an `id` field on `Cmd` and model
  `list(set(...))` as removal of later identical (key, id) entries.
* Python machine-level details (attribute mutation of the external
  `cmdsetobj`, the `instantiate` callable check) are outside the claims
  and are not modelled; `add` takes an optional descriptor, `none`
  standing for Python `None` (which `add` ignores via `if cmd:`).
* Fallible code paths (IndexError from `wordlist.pop(0)` on an empty
  list) are modelled with `Option`, `none` standing for a raised
  exception.
-/

/-- A command descriptor: `key` is the string identity used by the
developed code, `id` models Python object identity (two instances with
the same key are equal for `__eq__` but distinct objects). -/
structure Cmd where
  key : String
  id : Nat
deriving DecidableEq, Repr

/-- `__eq__` of command descriptors.  Modelled from the spec: equality
compares keys (the Command class is not part of the two source files). -/
def cmdEq (a b : Cmd) : Bool := a.key == b.key

/-- Key-membership `cmd in cmdset_x` over a plain command list, as used
by `CmdSet.__contains__`: `any(cmd == othercmd for cmd in self.commands)`. -/
def keyMemB (l : List Cmd) (c : Cmd) : Bool := l.any (fun d => cmdEq d c)

/-- `len(cmd.key) > 2 and cmd.key[:2] == '__'` from `get_system_cmds`. -/
def isSystemKey (k : String) : Bool :=
  decide (k.data.length > 2) && (k.data.take 2 == ['_', '_'])

/-- `list(set(self.commands))` under Python 2 identity hashing: later
occurrences of an already-present object are dropped; the first
occurrence of each (key, id) pair is kept in order. -/
def dedupKeepFirstAux (seen : List Cmd) : List Cmd → List Cmd
  | [] => []
  | c :: rest =>
    if c ∈ seen then dedupKeepFirstAux seen rest
    else c :: dedupKeepFirstAux (c :: seen) rest

/-- Entry point of the de-duplication used by `CmdSet.add`. -/
def dedupKeepFirst (l : List Cmd) : List Cmd := dedupKeepFirstAux [] l

/-- The `CmdSet` record: the metadata fields of the source class plus
its `commands` list.  The external `cmdsetobj` reference is opaque to
every claim and is omitted. -/
structure CmdSet where
  key : String
  mergetype : String
  priority : Int
  duplicates : Bool
  key_mergetypes : List (String × String)
  no_exits : Bool
  no_objs : Bool
  no_channels : Bool
  commands : List Cmd
  actual_mergetype : String
deriving DecidableEq, Repr

/-- `self.key_mergetypes.get(other_key, default)`. -/
def lookupD (m : List (String × String)) (k : String) (dflt : String) : String :=
  match m.lookup k with
  | some v => v
  | none => dflt

namespace CmdSet

/-- `copy_this`: a fresh `CmdSet()` (so `commands = []` and
`actual_mergetype` is the class default `"Union"` set by `__init__`)
whose metadata fields are then overwritten from `self`.  The source
never copies `actual_mergetype`. -/
def copy_this (cs : CmdSet) : CmdSet :=
  { key := cs.key
    mergetype := cs.mergetype
    priority := cs.priority
    duplicates := cs.duplicates
    key_mergetypes := cs.key_mergetypes
    no_exits := cs.no_exits
    no_objs := cs.no_objs
    no_channels := cs.no_channels
    commands := []
    actual_mergetype := "Union" }

/-- `__contains__`. -/
def containsCmd (cs : CmdSet) (c : Cmd) : Bool := keyMemB cs.commands c

/-- `get`: the first stored command equal (by key) to the probe. -/
def get (cs : CmdSet) (c : Cmd) : Option Cmd :=
  cs.commands.find? (fun d => cmdEq d c)

/-- `add`: append then `list(set(...))`; `None` (from a failed `get`)
is ignored by the `if cmd:` guard. -/
def add (cs : CmdSet) (c : Option Cmd) : CmdSet :=
  match c with
  | none => cs
  | some c => { cs with commands := dedupKeepFirst (cs.commands ++ [c]) }

/-- `get_system_cmds`. -/
def get_system_cmds (cs : CmdSet) : List Cmd :=
  cs.commands.filter (fun c => isSystemKey c.key)

end CmdSet

/-- `union(cmdset_a, cmdset_b, duplicates)` from the source: start from
a copy of `A`'s commands; on an exact priority tie with `duplicates`
extend with all of `B`'s commands, otherwise extend with `B`'s commands
not already in `A` by key. -/
def union (a b : CmdSet) (dup : Bool) : CmdSet :=
  { a.copy_this with
    commands :=
      if dup ∧ a.priority = b.priority then a.commands ++ b.commands
      else a.commands ++ b.commands.filter (fun c => ! keyMemB a.commands c) }

/-- `intersect(cmdset_a, cmdset_b, duplicates)` from the source: on an
exact priority tie with `duplicates`, for each of `A`'s commands also in
`B` add both `A`'s copy and `B.get`'s result; otherwise keep `A`'s
commands that are also in `B`. -/
def intersect (a b : CmdSet) (dup : Bool) : CmdSet :=
  if dup ∧ a.priority = b.priority then
    (a.commands.filter (fun c => keyMemB b.commands c)).foldl
      (fun acc c => (acc.add (some c)).add (b.get c)) a.copy_this
  else
    { a.copy_this with
      commands := a.commands.filter (fun c => keyMemB b.commands c) }

/-- `replace(cmdset_a, cmdset_b, _)` from the source: the result is
`A`'s commands (the third parameter is dead). -/
def replaceOp (a _b : CmdSet) : CmdSet :=
  { a.copy_this with commands := a.commands }

/-- `remove(cmdset_a, cmdset_b, _)` from the source: `B`'s commands
filtered to those not in `A` by key (the third parameter is dead). -/
def removeOp (a b : CmdSet) : CmdSet :=
  { a.copy_this with
    commands := b.commands.filter (fun c => ! keyMemB a.commands c) }

/-- The policy dispatch of `CmdSet.__add__`.  Both priority branches
are transcribed literally; note that in the lower-priority branch the
source calls `remove(self, cmdset_b, ...)` without swapping the
operands, unlike the other three policies. -/
def mergePolicy (a b : CmdSet) : CmdSet :=
  if a.priority ≥ b.priority then
    if lookupD a.key_mergetypes b.key a.mergetype = "Intersect" then
      intersect a b b.duplicates
    else if lookupD a.key_mergetypes b.key a.mergetype = "Replace" then
      replaceOp a b
    else if lookupD a.key_mergetypes b.key a.mergetype = "Remove" then
      removeOp a b
    else union a b b.duplicates
  else
    if lookupD b.key_mergetypes a.key b.mergetype = "Intersect" then
      intersect b a a.duplicates
    else if lookupD b.key_mergetypes a.key b.mergetype = "Replace" then
      replaceOp b a
    else if lookupD b.key_mergetypes a.key b.mergetype = "Remove" then
      removeOp a b
    else union b a a.duplicates

/-- Effective merge policy of `__add__` (the `mergetype` local of the
source): the higher-priority operand's override for the other's key,
else its `mergetype`; the left operand wins a tie. -/
def effPolicy (a b : CmdSet) : String :=
  if a.priority ≥ b.priority then lookupD a.key_mergetypes b.key a.mergetype
  else lookupD b.key_mergetypes a.key b.mergetype

/-- `CmdSet.__add__` with the right operand present: apply the policy
dispatch, record `actual_mergetype`, then re-add the system commands
collected from both operands. -/
def mergeSome (a b : CmdSet) : CmdSet :=
  (a.get_system_cmds ++ b.get_system_cmds).foldl
    (fun acc cmd => acc.add (some cmd))
    { mergePolicy a b with actual_mergetype := effPolicy a b }

/-- `CmdSet.__add__`: `None` is returned unchanged via `if not
cmdset_b: return self`.  A `CmdSet` instance defines neither `__len__`
nor `__bool__`, so an empty set is truthy and takes the merge path. -/
def mergeOpt (a : CmdSet) (b : Option CmdSet) : CmdSet :=
  match b with
  | none => a
  | some b => mergeSome a b

/-- The tie-winning higher-priority operand of `__add__`. -/
def highSet (a b : CmdSet) : CmdSet :=
  if a.priority ≥ b.priority then a else b

/-- The other (lower-priority, or right-on-tie) operand of `__add__`. -/
def lowSet (a b : CmdSet) : CmdSet :=
  if a.priority ≥ b.priority then b else a

/-!
Tokenizer model (src/commands/cmdparser.py).  Raw strings are modelled
as `List Char`.  The compiled `REGEX` is `["/\'":;\-#=!"]`: inside the
character class the backslash contributed by `"\\"` escapes the
following apostrophe, so the class contains `"` `/` `'` `:` `;` `-`
`#` `=` `!` but NOT the backslash itself, although the `SPECIAL_CHARS`
list and the surrounding comments intend backslash to be special.
-/

/-- A character matched by the compiled `REGEX` (the effective special
characters; see the module note about the swallowed backslash). -/
def isSpecialChar (c : Char) : Bool :=
  c == '"' || c == '/' || c == '\'' || c == ':' || c == ';' ||
  c == '-' || c == '#' || c == '=' || c == '!'

/-- Python string whitespace (`str.strip()` / `str.split(None)`):
space, tab, newline, carriage return, vertical tab, form feed. -/
def isPyWS (c : Char) : Bool :=
  c == ' ' || c == '\t' || c == '\n' || c == '\r' ||
  c.val == 11 || c.val == 12

/-- `raw_string.strip()`. -/
def pyStrip (l : List Char) : List Char :=
  ((l.dropWhile isPyWS).reverse.dropWhile isPyWS).reverse

/-- Helper for `split(" ")`: accumulate the current fragment. -/
def splitSpaceGo (acc : List Char) : List Char → List (List Char)
  | [] => [acc.reverse]
  | c :: rest =>
    if c = ' ' then acc.reverse :: splitSpaceGo [] rest
    else splitSpaceGo (c :: acc) rest

/-- `s.split(" ")`: split at every single space, keeping empty
fragments (`"".split(" ") == [""]`). -/
def splitSpace (l : List Char) : List (List Char) := splitSpaceGo [] l

/-- Helper for `split(None)`: split at every whitespace character. -/
def splitAnyWSGo (acc : List Char) : List Char → List (List Char)
  | [] => [acc.reverse]
  | c :: rest =>
    if isPyWS c then acc.reverse :: splitAnyWSGo [] rest
    else splitAnyWSGo (c :: acc) rest

/-- `s.split(None)`: whitespace-separated words, empties dropped. -/
def pySplitNone (l : List Char) : List (List Char) :=
  (splitAnyWSGo [] l).filter (fun w => ! w.isEmpty)

/-- One tokenizer hypothesis (`CommandCandidate` in the source):
`cmdname`, `args`, `priority` (the specificity rank) and the optional
`obj_key` qualifier. -/
structure CommandCandidate where
  cmdname : List Char
  args : List Char
  priority : Nat
  obj_key : Option (List Char)
deriving DecidableEq, Repr

/-- `word.strip().lower()` applied to each name word. -/
def normWord (w : List Char) : List Char := (pyStrip w).map Char.toLower

/-- `" ".join(...)` over name words. -/
def joinSpace (ws : List (List Char)) : List Char := List.intercalate [' '] ws

/-- The argument-reconstruction loop of `produce_candidates`: words are
joined by single spaces except that the first word, and any word whose
first character is special, is glued without a separating space. -/
def buildArgsGo (args : List Char) : List (List Char) → List Char
  | [] => args
  | w :: rest =>
    if args.isEmpty || (! w.isEmpty && isSpecialChar (w.headD ' ')) then
      buildArgsGo (args ++ w) rest
    else
      buildArgsGo (args ++ ' ' :: w) rest

/-- Argument text reconstructed from the words remaining after a name. -/
def buildArgs (ws : List (List Char)) : List Char := buildArgsGo [] ws

/-- The loop of `produce_candidates`: `acc` is `cmdwords_list`, `wl`
the mutable `wordlist`, `n` the running `n_words` counter.  `none`
models the IndexError raised by `wordlist.pop(0)` on an empty list. -/
def pcGo : Nat → List (List Char) → List (List Char) → Nat →
    Option (List CommandCandidate)
  | 0, _, _, _ => some []
  | k + 1, acc, wl, n =>
    match wl with
    | [] => none
    | w :: rest =>
      let acc' := acc ++ [w]
      let cmdwords := joinSpace (acc'.map normWord)
      let args := buildArgs rest
      (pcGo k acc' rest (n + 1)).map
        (fun cs => { cmdname := cmdwords, args := args, priority := n,
                     obj_key := none } :: cs)

/-- `produce_candidates(nr_candidates, wordlist)`. -/
def produceCandidates (nr : Nat) (wl : List (List Char)) :
    Option (List CommandCandidate) := pcGo nr [] wl 0

/-- The bottom block of `cmdparser`: no special character (or one
beyond the word budget), so run the command finder over the whole
stripped input, capped at `maxlen` words. -/
def cmdparserTail (maxlen : Nat) (s : List Char) :
    Option (List CommandCandidate) :=
  produceCandidates (min maxlen (pySplitNone s).length) (splitSpace s)

/-- The mid-string special-character case of `cmdparser`: the possible
qualifier candidates `altPart` come first; if the words before the
special character at `p` fit the budget, candidates are produced from
the boundary-inclusive word list, otherwise control falls through to
the bottom block. -/
def cmdparserMid (maxlen : Nat) (s : List Char) (p : Nat)
    (altPart : Option (List CommandCandidate)) :
    Option (List CommandCandidate) :=
  altPart.bind (fun alt =>
    if (pySplitNone (s.take p)).length ≤ maxlen then
      (produceCandidates (pySplitNone (s.take p)).length
          (splitSpace (s.take p) ++ splitSpace (s.drop p))).map
        (fun cs => alt ++ cs)
    else (cmdparserTail maxlen s).map (fun cs => alt ++ cs))

/-- `cmdparser(raw_string)` with an explicit fuel argument for the
bounded `"<word>'s "` self-recursion; `maxlen` is the external
`COMMAND_MAXLEN` setting.  `none` models a raised exception (fuel is
never exhausted when it starts above the input length, since each
recursive call strips at least the qualifier, the apostrophe and the
`s`). -/
def cmdparserFuel : Nat → Nat → List Char → Option (List CommandCandidate)
  | 0, _, _ => none
  | fuel + 1, maxlen, raw0 =>
    match (pyStrip raw0).findIdx? (fun c => isSpecialChar c) with
    | some 0 =>
      -- a special character opens the input: it is itself the command
      -- name and everything after it is the verbatim argument text
      some [⟨(pyStrip raw0).take 1, (pyStrip raw0).drop 1, 0, none⟩]
    | some (p + 1) =>
      cmdparserMid maxlen (pyStrip raw0) (p + 1)
        (if (pyStrip raw0).get? (p + 1) = some '\'' ∧
            (pyStrip raw0).get? (p + 2) = some 's' ∧
            (pyStrip raw0).get? (p + 3) = some ' ' then
          (cmdparserFuel fuel maxlen ((pyStrip raw0).drop (p + 3))).map
            (List.map (fun c =>
              { c with obj_key := some ((pyStrip raw0).take (p + 1)) }))
        else some [])
    | none => cmdparserTail maxlen (pyStrip raw0)

/-- `cmdparser(raw_string)`: fuel instantiated to one more than the
input length, which the recursion never exhausts. -/
def cmdparser (maxlen : Nat) (raw : List Char) :
    Option (List CommandCandidate) :=
  cmdparserFuel (raw.length + 1) maxlen raw

/-- The duplicate flag `__add__` passes to the policy functions: the
right operand's flag when the left has higher-or-equal priority, else
the left operand's (always the lower-priority side, except on a tie
where it is the right operand's). -/
def effDup (a b : CmdSet) : Bool :=
  if a.priority ≥ b.priority then b.duplicates else a.duplicates

/-- The set with its system commands removed (used to state that the
policy computations are insensitive to system commands). -/
def stripSys (cs : CmdSet) : CmdSet :=
  { cs with commands := cs.commands.filter (fun c => ! isSystemKey c.key) }

/-- Key-membership as a proposition: some stored descriptor has key `k`. -/
def keyMem (k : String) (l : List Cmd) : Prop := ∃ c ∈ l, c.key = k

instance (k : String) (l : List Cmd) : Decidable (keyMem k l) := by
  unfold keyMem; infer_instance

/-- The key set each policy branch of `__add__` produces (before the
system commands are re-added), phrased against the original operand
order: Remove always filters `b` by `a` (the source never swaps that
call), Replace keeps the tie-winning higher-priority side, Union and
Intersect are symmetric. -/
def policyKeyProp (mt : String) (a b : CmdSet) (k : String) : Prop :=
  if mt = "Intersect" then keyMem k a.commands ∧ keyMem k b.commands
  else if mt = "Replace" then keyMem k (highSet a b).commands
  else if mt = "Remove" then keyMem k b.commands ∧ ¬ keyMem k a.commands
  else keyMem k a.commands ∨ keyMem k b.commands

/-!
Heap model of the merge, for the frame property that a merge mutates
neither input set.  Python objects live in a heap: `lists` holds the
command-list objects and `sets` the `CmdSet` objects, each addressed by
index; a `CmdSet` object holds the address of its current `commands`
list.  In-place list mutation (`extend`, `append`) rewrites a list cell;
attribute rebinding (`self.commands = ...`) allocates a new cell and
repoints the set's `commandsRef`.
-/

/-- A heap-resident `CmdSet` object: metadata plus the address of its
`commands` list. -/
structure SetRec where
  key : String
  mergetype : String
  priority : Int
  duplicates : Bool
  key_mergetypes : List (String × String)
  no_exits : Bool
  no_objs : Bool
  no_channels : Bool
  actual_mergetype : String
  commandsRef : Nat
deriving DecidableEq, Repr

/-- Class defaults of `CmdSet`, used as the out-of-range read default. -/
def defaultSetRec : SetRec :=
  { key := "Unnamed CmdSet", mergetype := "Union", priority := 0
    duplicates := false, key_mergetypes := [], no_exits := false
    no_objs := false, no_channels := false, actual_mergetype := "Union"
    commandsRef := 0 }

/-- The heap: list objects and set objects, addressed by index. -/
structure Heap where
  lists : List (List Cmd)
  sets : List SetRec
deriving DecidableEq, Repr

/-- Allocate a fresh list object. -/
def allocList (h : Heap) (l : List Cmd) : Heap × Nat :=
  ({ h with lists := h.lists ++ [l] }, h.lists.length)

/-- Allocate a fresh set object. -/
def allocSet (h : Heap) (s : SetRec) : Heap × Nat :=
  ({ h with sets := h.sets ++ [s] }, h.sets.length)

/-- Read a list object. -/
def readListH (h : Heap) (r : Nat) : List Cmd := h.lists[r]?.getD []

/-- Read a set object. -/
def readSetH (h : Heap) (r : Nat) : SetRec := h.sets[r]?.getD defaultSetRec

/-- Overwrite a list object in place. -/
def writeListH (h : Heap) (r : Nat) (l : List Cmd) : Heap :=
  { h with lists := h.lists.set r l }

/-- Overwrite a set object in place. -/
def writeSetH (h : Heap) (r : Nat) (s : SetRec) : Heap :=
  { h with sets := h.sets.set r s }

/-- The command list currently referenced by set object `r`. -/
def commandsOfH (h : Heap) (r : Nat) : List Cmd :=
  readListH h (readSetH h r).commandsRef

/-- `copy_this` on the heap: `CmdSet()` allocates a fresh empty
commands list and a fresh set object whose metadata is then overwritten
from `self` (`actual_mergetype` keeps the constructor default). -/
def copyThisH (h : Heap) (aref : Nat) : Heap × Nat :=
  let a := readSetH h aref
  let al := allocList h []
  allocSet al.1
    { key := a.key, mergetype := a.mergetype, priority := a.priority
      duplicates := a.duplicates, key_mergetypes := a.key_mergetypes
      no_exits := a.no_exits, no_objs := a.no_objs
      no_channels := a.no_channels, actual_mergetype := "Union"
      commandsRef := al.2 }

/-- `add` on the heap: append in place, then rebind `self.commands` to
a freshly allocated `list(set(...))`. -/
def addH (h : Heap) (cref : Nat) (c : Option Cmd) : Heap :=
  match c with
  | none => h
  | some c =>
    let r := (readSetH h cref).commandsRef
    let h1 := writeListH h r (readListH h r ++ [c])
    let al := allocList h1 (dedupKeepFirst (readListH h1 r))
    writeSetH al.1 cref { readSetH al.1 cref with commandsRef := al.2 }

/-- `union` on the heap: `cmdset_c.commands = cmdset_a.commands[:]`
allocates a fresh copy which is then extended in place. -/
def unionH (h : Heap) (aref bref : Nat) (dup : Bool) : Heap × Nat :=
  let hc := copyThisH h aref
  let h1 := hc.1
  let cref := hc.2
  let al := allocList h1 (commandsOfH h1 aref)
  let h2 := al.1
  let lr := al.2
  let h3 := writeSetH h2 cref { readSetH h2 cref with commandsRef := lr }
  let aCmds := commandsOfH h3 aref
  let bCmds := commandsOfH h3 bref
  let ext :=
    if dup ∧ (readSetH h3 aref).priority = (readSetH h3 bref).priority
    then bCmds else bCmds.filter (fun c => ! keyMemB aCmds c)
  (writeListH h3 lr (readListH h3 lr ++ ext), cref)

/-- `intersect` on the heap; in the duplicates branch `cmdset_b.get` is
re-evaluated from the current heap at each loop step. -/
def intersectH (h : Heap) (aref bref : Nat) (dup : Bool) : Heap × Nat :=
  let hc := copyThisH h aref
  let h1 := hc.1
  let cref := hc.2
  let aCmds := commandsOfH h1 aref
  let bCmds := commandsOfH h1 bref
  if dup ∧ (readSetH h1 aref).priority = (readSetH h1 bref).priority then
    let shared := aCmds.filter (fun c => keyMemB bCmds c)
    (shared.foldl
      (fun hh c =>
        addH (addH hh cref (some c)) cref
          ((commandsOfH hh bref).find? (fun d => cmdEq d c))) h1, cref)
  else
    let al := allocList h1 (aCmds.filter (fun c => keyMemB bCmds c))
    (writeSetH al.1 cref { readSetH al.1 cref with commandsRef := al.2 }, cref)

/-- `replace` on the heap. -/
def replaceH (h : Heap) (aref _bref : Nat) : Heap × Nat :=
  let hc := copyThisH h aref
  let al := allocList hc.1 (commandsOfH hc.1 aref)
  (writeSetH al.1 hc.2 { readSetH al.1 hc.2 with commandsRef := al.2 }, hc.2)

/-- `remove` on the heap. -/
def removeH (h : Heap) (aref bref : Nat) : Heap × Nat :=
  let hc := copyThisH h aref
  let h1 := hc.1
  let al := allocList h1
    ((commandsOfH h1 bref).filter (fun c => ! keyMemB (commandsOfH h1 aref) c))
  (writeSetH al.1 hc.2 { readSetH al.1 hc.2 with commandsRef := al.2 }, hc.2)

/-- The policy dispatch of `__add__` on the heap (the Remove call is
unswapped in the lower-priority branch, as in the source). -/
def mergeDispatchH (h : Heap) (aref bref : Nat) : Heap × Nat :=
  if (readSetH h aref).priority ≥ (readSetH h bref).priority then
    if lookupD (readSetH h aref).key_mergetypes (readSetH h bref).key
        (readSetH h aref).mergetype = "Intersect" then
      intersectH h aref bref (readSetH h bref).duplicates
    else if lookupD (readSetH h aref).key_mergetypes (readSetH h bref).key
        (readSetH h aref).mergetype = "Replace" then
      replaceH h aref bref
    else if lookupD (readSetH h aref).key_mergetypes (readSetH h bref).key
        (readSetH h aref).mergetype = "Remove" then
      removeH h aref bref
    else unionH h aref bref (readSetH h bref).duplicates
  else
    if lookupD (readSetH h bref).key_mergetypes (readSetH h aref).key
        (readSetH h bref).mergetype = "Intersect" then
      intersectH h bref aref (readSetH h aref).duplicates
    else if lookupD (readSetH h bref).key_mergetypes (readSetH h aref).key
        (readSetH h bref).mergetype = "Replace" then
      replaceH h bref aref
    else if lookupD (readSetH h bref).key_mergetypes (readSetH h aref).key
        (readSetH h bref).mergetype = "Remove" then
      removeH h aref bref
    else unionH h bref aref (readSetH h aref).duplicates

/-- The effective policy string recorded as `actual_mergetype`. -/
def mergeMtH (h : Heap) (aref bref : Nat) : String :=
  if (readSetH h aref).priority ≥ (readSetH h bref).priority then
    lookupD (readSetH h aref).key_mergetypes (readSetH h bref).key
      (readSetH h aref).mergetype
  else
    lookupD (readSetH h bref).key_mergetypes (readSetH h aref).key
      (readSetH h bref).mergetype

/-- `__add__` on the heap, right operand present: collect both sides'
system commands, dispatch on priority and effective policy, record
`actual_mergetype`, then re-add the system commands. -/
def mergeH (h : Heap) (aref bref : Nat) : Heap × Nat :=
  (((commandsOfH h aref).filter (fun c => isSystemKey c.key) ++
      (commandsOfH h bref).filter (fun c => isSystemKey c.key)).foldl
    (fun hh c => addH hh (mergeDispatchH h aref bref).2 (some c))
    (writeSetH (mergeDispatchH h aref bref).1 (mergeDispatchH h aref bref).2
      { readSetH (mergeDispatchH h aref bref).1
          (mergeDispatchH h aref bref).2 with
        actual_mergetype := mergeMtH h aref bref }),
   (mergeDispatchH h aref bref).2)

/-- Heap states below the water lines `n` (lists) and `m` (sets) are
unchanged, and the heap has only grown. -/
def PresBelow (n m : Nat) (h h' : Heap) : Prop :=
  n ≤ h'.lists.length ∧ m ≤ h'.sets.length ∧
  (∀ i, i < n → h'.lists[i]? = h.lists[i]?) ∧
  (∀ j, j < m → h'.sets[j]? = h.sets[j]?)

/-- The returned set object is fresh relative to the water lines and its
current commands list is a fresh cell. -/
def FreshFor (n m : Nat) (h : Heap) (cref : Nat) : Prop :=
  m ≤ cref ∧ cref < h.sets.length ∧
  n ≤ (readSetH h cref).commandsRef ∧
  (readSetH h cref).commandsRef < h.lists.length

/-- Build a `CmdSet` with empty override map and default flags, as the
constructor would after populating `commands`. -/
def mkSet (key mt : String) (pri : Int) (dup : Bool) (cmds : List Cmd) :
    CmdSet :=
  { key := key, mergetype := mt, priority := pri, duplicates := dup
    key_mergetypes := [], no_exits := false, no_objs := false
    no_channels := false, commands := cmds, actual_mergetype := mt }

/-- Concrete sets for evaluating the Remove policy when the right
operand has the higher priority. -/
def c1SetA : CmdSet := mkSet "CmdsetA" "Union" 0 false [⟨"a", 0⟩]

/-- The higher-priority Remove-policy right operand. -/
def c1SetB : CmdSet := mkSet "CmdsetB" "Remove" 1 false [⟨"b", 1⟩]

/-- An Intersect-policy set with one command, merged against an empty
set for the identity-merge counterexample. -/
def c2SetA : CmdSet := mkSet "C2A" "Intersect" 0 false [⟨"a", 0⟩]

/-- An empty command set. -/
def c2SetB : CmdSet := mkSet "C2B" "Union" 0 false []

/-- Union witness set with a system command and a normal command. -/
def c3SetA : CmdSet := mkSet "C3A" "Union" 0 false [⟨"__boot", 0⟩, ⟨"a", 1⟩]

/-- Union witness set with one normal command. -/
def c3SetB : CmdSet := mkSet "C3B" "Union" 0 false [⟨"b", 2⟩]

/-- Higher-priority Union set holding a system command, for the
overlapping-system-key counterexample. -/
def c4SetA : CmdSet := mkSet "C4A" "Union" 1 false [⟨"__x", 0⟩]

/-- Lower-priority Union set holding a same-key system command. -/
def c4SetB : CmdSet := mkSet "C4B" "Union" 0 false [⟨"__x", 1⟩]

/-- Unequal-priority Union witness sets. -/
def c4wSetA : CmdSet := mkSet "C4WA" "Union" 0 false [⟨"p", 0⟩]

/-- The higher-priority side of the Union witness. -/
def c4wSetB : CmdSet := mkSet "C4WB" "Union" 2 false [⟨"q", 1⟩]

/-- Equal-priority Union witness, left side. -/
def c4tSetA : CmdSet := mkSet "C4TA" "Union" 0 false [⟨"p", 2⟩]

/-- Equal-priority Union witness, right side, duplicates allowed. -/
def c4tSetB : CmdSet := mkSet "C4TB" "Union" 0 true [⟨"p", 3⟩]

/-- Intersect set with a system command and a shared key, for the
Intersect counterexample (tie, right side allows duplicates). -/
def c5SetA : CmdSet := mkSet "C5A" "Intersect" 0 false [⟨"__x", 0⟩, ⟨"a", 1⟩]

/-- The tie-priority right operand whose duplicates flag is consulted. -/
def c5SetB : CmdSet := mkSet "C5B" "Union" 0 true [⟨"a", 2⟩]

/-- Intersect witness sets (unequal priority, no system commands). -/
def c5wSetA : CmdSet := mkSet "C5WA" "Intersect" 1 false [⟨"s", 0⟩, ⟨"t", 1⟩]

/-- The lower-priority Intersect witness operand. -/
def c5wSetB : CmdSet := mkSet "C5WB" "Union" 0 false [⟨"s", 2⟩]

/-- Tie-with-duplicates Intersect witness, left side. -/
def c5tSetA : CmdSet := mkSet "C5TA" "Intersect" 0 false [⟨"s", 4⟩]

/-- Tie-with-duplicates Intersect witness, right side. -/
def c5tSetB : CmdSet := mkSet "C5TB" "Union" 0 true [⟨"s", 5⟩]

/-- A concrete two-set heap for the frame-property witness. -/
def c6Heap : Heap :=
  { lists := [[⟨"a", 0⟩], [⟨"b", 1⟩]]
    sets := [{ key := "W6A", mergetype := "Union", priority := 0
               duplicates := false, key_mergetypes := [], no_exits := false
               no_objs := false, no_channels := false
               actual_mergetype := "Union", commandsRef := 0 },
             { key := "W6B", mergetype := "Remove", priority := 1
               duplicates := false, key_mergetypes := [], no_exits := false
               no_objs := false, no_channels := false
               actual_mergetype := "Remove", commandsRef := 1 }] }

/-! Shared lemmas about the pure merge model. -/

theorem cmdEq_iff {a b : Cmd} : cmdEq a b = true ↔ a.key = b.key := by
  simp [cmdEq]

theorem keyMemB_iff {l : List Cmd} {c : Cmd} :
    keyMemB l c = true ↔ keyMem c.key l := by
  simp [keyMemB, keyMem, cmdEq, List.any_eq_true]

theorem keyMemB_false_iff {l : List Cmd} {c : Cmd} :
    keyMemB l c = false ↔ ¬ keyMem c.key l := by
  rw [← keyMemB_iff]
  cases keyMemB l c <;> simp

theorem keyMem_of_mem {l : List Cmd} {c : Cmd} (h : c ∈ l) :
    keyMem c.key l := ⟨c, h, rfl⟩

theorem keyMem_append {k : String} {l₁ l₂ : List Cmd} :
    keyMem k (l₁ ++ l₂) ↔ keyMem k l₁ ∨ keyMem k l₂ := by
  simp [keyMem, List.mem_append, or_and_right, exists_or]

theorem mem_dedupKeepFirstAux {x : Cmd} :
    ∀ (l seen : List Cmd),
      x ∈ dedupKeepFirstAux seen l ↔ x ∈ l ∧ x ∉ seen := by
  intro l
  induction l with
  | nil => intro seen; simp [dedupKeepFirstAux]
  | cons c rest ih =>
    intro seen
    by_cases hc : c ∈ seen
    · rw [dedupKeepFirstAux, if_pos hc, ih]
      constructor
      · rintro ⟨h1, h2⟩; exact ⟨List.mem_cons_of_mem _ h1, h2⟩
      · rintro ⟨h1, h2⟩
        rcases List.mem_cons.1 h1 with rfl | h1
        · exact absurd hc h2
        · exact ⟨h1, h2⟩
    · rw [dedupKeepFirstAux, if_neg hc]
      constructor
      · intro h
        rcases List.mem_cons.1 h with rfl | h
        · exact ⟨List.mem_cons_self _ _, hc⟩
        · rcases (ih _).1 h with ⟨h1, h2⟩
          refine ⟨List.mem_cons_of_mem _ h1, fun hs => h2 ?_⟩
          exact List.mem_cons_of_mem _ hs
      · rintro ⟨h1, h2⟩
        rcases List.mem_cons.1 h1 with rfl | h1
        · exact List.mem_cons_self _ _
        · by_cases hxc : x = c
          · subst hxc; exact List.mem_cons_self _ _
          · refine List.mem_cons_of_mem _ ((ih _).2 ⟨h1, ?_⟩)
            intro hs
            rcases List.mem_cons.1 hs with h | h
            · exact hxc h
            · exact h2 h

theorem mem_dedupKeepFirst {x : Cmd} {l : List Cmd} :
    x ∈ dedupKeepFirst l ↔ x ∈ l := by
  simp [dedupKeepFirst, mem_dedupKeepFirstAux]

theorem add_some_mem {cs : CmdSet} {c x : Cmd} :
    x ∈ (cs.add (some c)).commands ↔ x ∈ cs.commands ∨ x = c := by
  simp [CmdSet.add, mem_dedupKeepFirst]

theorem add_mem {cs : CmdSet} {o : Option Cmd} {x : Cmd} :
    x ∈ (cs.add o).commands ↔ x ∈ cs.commands ∨ o = some x := by
  cases o with
  | none => simp [CmdSet.add]
  | some c =>
    rw [add_some_mem]
    constructor
    · rintro (h | rfl)
      · exact Or.inl h
      · exact Or.inr rfl
    · rintro (h | h)
      · exact Or.inl h
      · exact Or.inr (Option.some_inj.1 h).symm

theorem foldl_add_mem {S : List Cmd} :
    ∀ (c : CmdSet) (x : Cmd),
      x ∈ (S.foldl (fun acc cmd => acc.add (some cmd)) c).commands ↔
        x ∈ c.commands ∨ x ∈ S := by
  induction S with
  | nil => intro c x; simp
  | cons s S ih =>
    intro c x
    rw [List.foldl_cons, ih, add_some_mem]
    simp [List.mem_cons]
    tauto

theorem foldl_add_keyMem {S : List Cmd} {c : CmdSet} {k : String} :
    keyMem k ((S.foldl (fun acc cmd => acc.add (some cmd)) c).commands) ↔
      keyMem k c.commands ∨ keyMem k S := by
  unfold keyMem
  constructor
  · rintro ⟨x, hx, rfl⟩
    rcases (foldl_add_mem c x).1 hx with h | h
    · exact Or.inl ⟨x, h, rfl⟩
    · exact Or.inr ⟨x, h, rfl⟩
  · rintro (⟨x, hx, rfl⟩ | ⟨x, hx, rfl⟩)
    · exact ⟨x, (foldl_add_mem c x).2 (Or.inl hx), rfl⟩
    · exact ⟨x, (foldl_add_mem c x).2 (Or.inr hx), rfl⟩

theorem keyMem_filter_not {k : String} {la lb : List Cmd} :
    keyMem k (lb.filter (fun c => ! keyMemB la c)) ↔
      keyMem k lb ∧ ¬ keyMem k la := by
  constructor
  · rintro ⟨c, hc, rfl⟩
    rw [List.mem_filter] at hc
    obtain ⟨hcb, hneg⟩ := hc
    rw [Bool.not_eq_true'] at hneg
    exact ⟨⟨c, hcb, rfl⟩, keyMemB_false_iff.1 hneg⟩
  · rintro ⟨⟨c, hcb, rfl⟩, hna⟩
    refine ⟨c, List.mem_filter.2 ⟨hcb, ?_⟩, rfl⟩
    rw [Bool.not_eq_true']
    exact keyMemB_false_iff.2 hna

theorem keyMem_filter_mem {k : String} {la lb : List Cmd} :
    keyMem k (la.filter (fun c => keyMemB lb c)) ↔
      keyMem k la ∧ keyMem k lb := by
  constructor
  · rintro ⟨c, hc, rfl⟩
    rw [List.mem_filter] at hc
    exact ⟨⟨c, hc.1, rfl⟩, keyMemB_iff.1 hc.2⟩
  · rintro ⟨⟨c, hca, rfl⟩, hb⟩
    exact ⟨c, List.mem_filter.2 ⟨hca, keyMemB_iff.2 hb⟩, rfl⟩

theorem union_keyMem {a b : CmdSet} {dup : Bool} {k : String} :
    keyMem k (union a b dup).commands ↔
      keyMem k a.commands ∨ keyMem k b.commands := by
  unfold union
  by_cases h : dup = true ∧ a.priority = b.priority
  · simp only [if_pos h]
    exact keyMem_append
  · simp only [if_neg h]
    rw [keyMem_append, keyMem_filter_not]
    constructor
    · rintro (h1 | ⟨h1, _⟩)
      · exact Or.inl h1
      · exact Or.inr h1
    · rintro (h1 | h1)
      · exact Or.inl h1
      · by_cases ha : keyMem k a.commands
        · exact Or.inl ha
        · exact Or.inr ⟨h1, ha⟩

theorem get_key_eq {b : CmdSet} {c d : Cmd} (h : b.get c = some d) :
    d.key = c.key := by
  unfold CmdSet.get at h
  have hp := @List.find?_some Cmd (fun x => cmdEq x c) d b.commands h
  exact cmdEq_iff.1 hp

theorem get_mem {b : CmdSet} {c d : Cmd} (h : b.get c = some d) :
    d ∈ b.commands := List.mem_of_find?_eq_some h

theorem get_isSome_of_keyMemB {b : CmdSet} {c : Cmd}
    (h : keyMemB b.commands c = true) : ∃ d, b.get c = some d := by
  rw [keyMemB_iff] at h
  obtain ⟨d, hd, hk⟩ := h
  have : (b.commands.find? (fun x => cmdEq x c)).isSome := by
    rw [List.find?_isSome]
    exact ⟨d, hd, cmdEq_iff.2 hk⟩
  exact Option.isSome_iff_exists.1 this

theorem pairsFold_mem {b : CmdSet} :
    ∀ (l : List Cmd) (c0 : CmdSet) (x : Cmd),
      x ∈ ((l.foldl (fun acc c => (acc.add (some c)).add (b.get c))
          c0).commands) ↔
        x ∈ c0.commands ∨ ∃ c ∈ l, x = c ∨ b.get c = some x := by
  intro l
  induction l with
  | nil => intro c0 x; simp
  | cons c l ih =>
    intro c0 x
    rw [List.foldl_cons, ih, add_mem, add_some_mem]
    simp only [List.mem_cons]
    constructor
    · rintro (((h | rfl) | h) | ⟨c', hc', h⟩)
      · exact Or.inl h
      · exact Or.inr ⟨x, Or.inl rfl, Or.inl rfl⟩
      · exact Or.inr ⟨c, Or.inl rfl, Or.inr h⟩
      · exact Or.inr ⟨c', Or.inr hc', h⟩
    · rintro (h | ⟨c', hc' | hc', h⟩)
      · exact Or.inl (Or.inl (Or.inl h))
      · subst hc'
        rcases h with rfl | h
        · exact Or.inl (Or.inl (Or.inr rfl))
        · exact Or.inl (Or.inr h)
      · exact Or.inr ⟨c', hc', h⟩

theorem intersect_keyMem {a b : CmdSet} {dup : Bool} {k : String} :
    keyMem k (intersect a b dup).commands ↔
      keyMem k a.commands ∧ keyMem k b.commands := by
  unfold intersect
  by_cases h : dup = true ∧ a.priority = b.priority
  · simp only [if_pos h]
    constructor
    · rintro ⟨x, hx, rfl⟩
      rcases (pairsFold_mem _ _ x).1 hx with hx0 | ⟨c, hcl, hxc⟩
      · simp [CmdSet.copy_this] at hx0
      · rw [List.mem_filter] at hcl
        obtain ⟨hca, hcb⟩ := hcl
        rcases hxc with rfl | hget
        · exact ⟨keyMem_of_mem hca, keyMemB_iff.1 hcb⟩
        · rw [get_key_eq hget]
          exact ⟨keyMem_of_mem hca, keyMemB_iff.1 hcb⟩
    · rintro ⟨⟨ca, hca, rfl⟩, hkb⟩
      refine ⟨ca, ?_, rfl⟩
      rw [pairsFold_mem]
      exact Or.inr ⟨ca, List.mem_filter.2 ⟨hca, keyMemB_iff.2 hkb⟩,
        Or.inl rfl⟩
  · simp only [if_neg h]
    exact keyMem_filter_mem

theorem replaceOp_keyMem {a b : CmdSet} {k : String} :
    keyMem k (replaceOp a b).commands ↔ keyMem k a.commands := Iff.rfl

theorem removeOp_keyMem {a b : CmdSet} {k : String} :
    keyMem k (removeOp a b).commands ↔
      keyMem k b.commands ∧ ¬ keyMem k a.commands := keyMem_filter_not

theorem mergeSome_keyMem {a b : CmdSet} {k : String} :
    keyMem k (mergeSome a b).commands ↔
      policyKeyProp (effPolicy a b) a b k ∨
        keyMem k a.get_system_cmds ∨ keyMem k b.get_system_cmds := by
  unfold mergeSome mergePolicy effPolicy policyKeyProp highSet
  by_cases hp : a.priority ≥ b.priority
  · simp only [if_pos hp]
    rw [foldl_add_keyMem, keyMem_append]
    by_cases h1 : lookupD a.key_mergetypes b.key a.mergetype = "Intersect"
    · simp only [if_pos h1]
      rw [intersect_keyMem]
    · simp only [if_neg h1]
      by_cases h2 : lookupD a.key_mergetypes b.key a.mergetype = "Replace"
      · simp only [if_pos h2]
        rw [replaceOp_keyMem]
      · simp only [if_neg h2]
        by_cases h3 : lookupD a.key_mergetypes b.key a.mergetype = "Remove"
        · simp only [if_pos h3]
          rw [removeOp_keyMem]
        · simp only [if_neg h3]
          rw [union_keyMem]
  · simp only [if_neg hp]
    rw [foldl_add_keyMem, keyMem_append]
    by_cases h1 : lookupD b.key_mergetypes a.key b.mergetype = "Intersect"
    · simp only [if_pos h1]
      rw [intersect_keyMem, and_comm]
    · simp only [if_neg h1]
      by_cases h2 : lookupD b.key_mergetypes a.key b.mergetype = "Replace"
      · simp only [if_pos h2]
        rw [replaceOp_keyMem]
      · simp only [if_neg h2]
        by_cases h3 : lookupD b.key_mergetypes a.key b.mergetype = "Remove"
        · simp only [if_pos h3]
          rw [removeOp_keyMem]
        · simp only [if_neg h3]
          rw [union_keyMem]
          tauto

/-- Claim C1: merging `c1SetA` (priority 0, one command `a`) with
`c1SetB` (priority 1, policy Remove, one command `b`) keeps `B`'s
command `b` and drops `A`'s command `a`: the code computes
`keys(H) \ keys(L)`, not the claimed `keys(L) \ keys(H) = {a}`, because
the lower-priority branch of `__add__` passes the operands to `remove`
unswapped. -/
theorem c1_remove_highpriority_right_eval :
    (mergeSome c1SetA c1SetB).commands = [⟨"b", 1⟩] ∧
    c1SetA.priority < c1SetB.priority ∧
    effPolicy c1SetA c1SetB = "Remove" ∧
    ¬ (∃ c ∈ (mergeSome c1SetA c1SetB).commands, c.key = "a") := by
  decide

theorem stripSys_keyMem {cs : CmdSet} {k : String}
    (hk : isSystemKey k = false) :
    keyMem k (stripSys cs).commands ↔ keyMem k cs.commands := by
  unfold stripSys keyMem
  constructor
  · rintro ⟨c, hc, rfl⟩
    exact ⟨c, (List.mem_filter.1 hc).1, rfl⟩
  · rintro ⟨c, hc, rfl⟩
    refine ⟨c, List.mem_filter.2 ⟨hc, ?_⟩, rfl⟩
    rw [hk]
    rfl

theorem stripSys_sys_nil (cs : CmdSet) :
    (stripSys cs).get_system_cmds = [] := by
  unfold stripSys CmdSet.get_system_cmds
  apply List.eq_nil_iff_forall_not_mem.2
  intro c hc
  rw [List.mem_filter] at hc
  obtain ⟨hmem, hs⟩ := hc
  rw [List.mem_filter] at hmem
  obtain ⟨_, hns⟩ := hmem
  rw [Bool.not_eq_true'] at hns
  rw [hns] at hs
  exact Bool.noConfusion hs

theorem effPolicy_stripSys (a b : CmdSet) :
    effPolicy (stripSys a) (stripSys b) = effPolicy a b := rfl

theorem highSet_stripSys (a b : CmdSet) :
    highSet (stripSys a) (stripSys b) = stripSys (highSet a b) := by
  unfold highSet
  by_cases h : a.priority ≥ b.priority
  · have h' : (stripSys a).priority ≥ (stripSys b).priority := h
    rw [if_pos h', if_pos h]
  · have h' : ¬ (stripSys a).priority ≥ (stripSys b).priority := h
    rw [if_neg h', if_neg h]

theorem sysKeyMem_false {cs : CmdSet} {k : String}
    (hk : isSystemKey k = false) : ¬ keyMem k cs.get_system_cmds := by
  rintro ⟨c, hc, rfl⟩
  have hs := (List.mem_filter.1 hc).2
  rw [hk] at hs
  exact Bool.noConfusion hs

theorem policyKeyProp_stripSys {mt : String} {a b : CmdSet} {k : String}
    (hk : isSystemKey k = false) :
    policyKeyProp mt (stripSys a) (stripSys b) k ↔ policyKeyProp mt a b k := by
  unfold policyKeyProp
  rw [highSet_stripSys]
  by_cases h1 : mt = "Intersect"
  · simp only [if_pos h1, stripSys_keyMem hk]
  · simp only [if_neg h1]
    by_cases h2 : mt = "Replace"
    · simp only [if_pos h2]
      exact stripSys_keyMem hk
    · simp only [if_neg h2]
      by_cases h3 : mt = "Remove"
      · simp only [if_pos h3, stripSys_keyMem hk]
      · simp only [if_neg h3, stripSys_keyMem hk]

/-- Claim C3: in every merge, under every effective policy, every
system command (key longer than two characters starting with two
underscores) present in either operand appears by key in the result,
and for non-system keys the result's key membership is exactly what the
merge of the system-stripped operands produces, so the four policy
computations are observably insensitive to system commands. -/
theorem c3_system_commands_carveout (a b : CmdSet) :
    (∀ c ∈ a.commands ++ b.commands, isSystemKey c.key = true →
      keyMem c.key (mergeSome a b).commands) ∧
    (∀ k : String, isSystemKey k = false →
      (keyMem k (mergeSome a b).commands ↔
        keyMem k (mergeSome (stripSys a) (stripSys b)).commands)) := by
  constructor
  · intro c hc hsys
    rw [mergeSome_keyMem]
    rcases List.mem_append.1 hc with h | h
    · exact Or.inr (Or.inl ⟨c, List.mem_filter.2 ⟨h, hsys⟩, rfl⟩)
    · exact Or.inr (Or.inr ⟨c, List.mem_filter.2 ⟨h, hsys⟩, rfl⟩)
  · intro k hk
    rw [mergeSome_keyMem, mergeSome_keyMem, effPolicy_stripSys,
      policyKeyProp_stripSys hk, stripSys_sys_nil, stripSys_sys_nil]
    have h1 := @sysKeyMem_false a k hk
    have h2 := @sysKeyMem_false b k hk
    have h3 : ¬ keyMem k ([] : List Cmd) := by rintro ⟨c, hc, _⟩; cases hc
    tauto

/-- Claim C3 witness: with `c3SetA` (a system command `__boot` plus a
normal command `a`) and `c3SetB` (a normal command `b`), the system
command's key is in the merge result, and membership of the non-system
key `a` agrees with the system-stripped merge. -/
theorem c3_system_commands_carveout_witness :
    keyMem "__boot" (mergeSome c3SetA c3SetB).commands ∧
    (keyMem "a" (mergeSome c3SetA c3SetB).commands ↔
      keyMem "a" (mergeSome (stripSys c3SetA) (stripSys c3SetB)).commands) :=
  ⟨(c3_system_commands_carveout c3SetA c3SetB).1 ⟨"__boot", 0⟩ (by decide)
      (by decide),
   (c3_system_commands_carveout c3SetA c3SetB).2 "a" (by decide)⟩

theorem dedupAux_nodup_append {x : Cmd} :
    ∀ (l seen : List Cmd), l.Nodup → (∀ y ∈ l, y ∉ seen) →
      (x ∈ seen ∨ x ∈ l) → dedupKeepFirstAux seen (l ++ [x]) = l := by
  intro l
  induction l with
  | nil =>
    intro seen _ _ hx
    rcases hx with hx | hx
    · simp [dedupKeepFirstAux, hx]
    · cases hx
  | cons c l ih =>
    intro seen hnd hni hx
    rw [List.cons_append]
    have hcs : c ∉ seen := hni c (List.mem_cons_self _ _)
    rw [dedupKeepFirstAux, if_neg hcs]
    congr 1
    apply ih (c :: seen)
    · exact (List.nodup_cons.1 hnd).2
    · intro y hy hymem
      rcases List.mem_cons.1 hymem with rfl | hyseen
      · exact (List.nodup_cons.1 hnd).1 hy
      · exact hni y (List.mem_cons_of_mem _ hy) hyseen
    · rcases hx with hx | hx
      · exact Or.inl (List.mem_cons_of_mem _ hx)
      · rcases List.mem_cons.1 hx with rfl | hx
        · exact Or.inl (List.mem_cons_self _ _)
        · exact Or.inr hx

theorem add_mem_self_eq {cs : CmdSet} {x : Cmd} (hnd : cs.commands.Nodup)
    (hx : x ∈ cs.commands) : cs.add (some x) = cs := by
  have h : dedupKeepFirst (cs.commands ++ [x]) = cs.commands := by
    unfold dedupKeepFirst
    exact dedupAux_nodup_append cs.commands [] hnd
      (by intro y _ hy; cases hy) (Or.inr hx)
  show ({ cs with commands := dedupKeepFirst (cs.commands ++ [x]) }
      : CmdSet) = cs
  rw [h]

theorem foldl_add_self {c : CmdSet} (hnd : c.commands.Nodup) :
    ∀ S : List Cmd, (∀ x ∈ S, x ∈ c.commands) →
      S.foldl (fun acc cmd => acc.add (some cmd)) c = c := by
  intro S
  induction S with
  | nil => intro _; rfl
  | cons s S ih =>
    intro hS
    rw [List.foldl_cons, add_mem_self_eq hnd (hS s (List.mem_cons_self _ _))]
    exact ih (fun x hx => hS x (List.mem_cons_of_mem _ hx))

theorem union_commands_empty_right {a b : CmdSet} {dup : Bool}
    (hb : b.commands = []) : (union a b dup).commands = a.commands := by
  unfold union
  rw [hb]
  by_cases h : dup = true ∧ a.priority = b.priority
  · rw [if_pos h]
    exact List.append_nil _
  · rw [if_neg h]
    exact List.append_nil _

theorem mergeSome_union_empty {a b : CmdSet} (hb : b.commands = [])
    (heff : effPolicy a b = "Union") (hnd : a.commands.Nodup) :
    (mergeSome a b).commands = a.commands := by
  have hsysb : b.get_system_cmds = [] := by
    unfold CmdSet.get_system_cmds
    rw [hb]
    rfl
  have hpol : (mergePolicy a b).commands = a.commands := by
    unfold mergePolicy
    unfold effPolicy at heff
    by_cases hp : a.priority ≥ b.priority
    · rw [if_pos hp] at heff
      rw [if_pos hp, heff]
      simp only [reduceIte, String.reduceEq]
      exact union_commands_empty_right hb
    · rw [if_neg hp] at heff
      rw [if_neg hp, heff]
      simp only [reduceIte, String.reduceEq]
      show (union b a a.duplicates).commands = a.commands
      unfold union
      show (if a.duplicates = true ∧ b.priority = a.priority then
          b.commands ++ a.commands
        else b.commands ++
          a.commands.filter (fun c => ! keyMemB b.commands c)) = a.commands
      rw [hb]
      by_cases h : a.duplicates = true ∧ b.priority = a.priority
      · rw [if_pos h]
        rfl
      · rw [if_neg h, List.nil_append]
        apply List.filter_eq_self.2
        intro c _
        rfl
  have hc1 : ({ mergePolicy a b with actual_mergetype := effPolicy a b }
      : CmdSet).commands = a.commands := hpol
  unfold mergeSome
  rw [hsysb, List.append_nil]
  have hnd' : ({ mergePolicy a b with
      actual_mergetype := effPolicy a b } : CmdSet).commands.Nodup := by
    rw [hc1]; exact hnd
  rw [foldl_add_self hnd' a.get_system_cmds
    (by intro x hx; rw [hc1]; exact (List.mem_filter.1 hx).1)]
  exact hc1

/-- Claim C2 counterexample: `c2SetA` has mergetype Intersect and one
command; merging it with the empty set `c2SetB` does not behave as the
identity: the empty set is truthy in Python (no `__len__`), so the
merge path runs and Intersect drops `A`'s only command. -/
theorem c2_empty_merge_counterexample :
    (mergeSome c2SetA c2SetB).commands ≠ c2SetA.commands ∧
    c2SetB.commands = [] ∧ (mergeSome c2SetA c2SetB).commands = [] := by
  decide

/-- Claim C2 (amended): merging with `None` returns the left set itself
unchanged and is never an error; merging with an empty `CommandSet`
returns the left set's commands unchanged provided the effective policy
is Union (the default) and the left set's command list has no duplicate
entries (under Intersect or Remove the non-system commands are dropped
instead). -/
theorem c2_identity_merge_amended :
    (∀ a : CmdSet, mergeOpt a none = a) ∧
    (∀ a b : CmdSet, b.commands = [] → effPolicy a b = "Union" →
      a.commands.Nodup → (mergeSome a b).commands = a.commands) := by
  constructor
  · intro a
    rfl
  · intro a b hb heff hnd
    exact mergeSome_union_empty hb heff hnd

/-- Claim C2 witness: a Union-policy set with one command merged
against a concrete empty set keeps its commands. -/
theorem c2_identity_merge_amended_witness :
    mergeOpt c3SetB none = c3SetB ∧
    (mergeSome c3SetB c2SetB).commands = c3SetB.commands :=
  ⟨c2_identity_merge_amended.1 c3SetB,
   c2_identity_merge_amended.2 c3SetB c2SetB (by decide) (by decide)
     (by decide)⟩

theorem mergeSome_mem {a b : CmdSet} {x : Cmd} :
    x ∈ (mergeSome a b).commands ↔
      x ∈ (mergePolicy a b).commands ∨
        x ∈ a.get_system_cmds ∨ x ∈ b.get_system_cmds := by
  unfold mergeSome
  rw [foldl_add_mem]
  rw [List.mem_append]

theorem sys_keyMem_imp {cs : CmdSet} {k : String}
    (h : keyMem k cs.get_system_cmds) : keyMem k cs.commands := by
  obtain ⟨c, hc, rfl⟩ := h
  exact ⟨c, (List.mem_filter.1 hc).1, rfl⟩

theorem sys_mem_isSystem {cs : CmdSet} {x : Cmd}
    (h : x ∈ cs.get_system_cmds) : isSystemKey x.key = true :=
  (List.mem_filter.1 h).2

theorem mergePolicy_union_low {a b : CmdSet} (hlt : a.priority < b.priority)
    (heff : effPolicy a b = "Union") :
    mergePolicy a b = union b a a.duplicates ∧
      mergePolicy b a = union b a a.duplicates := by
  have hp : ¬ a.priority ≥ b.priority := not_le.2 hlt
  have hq : b.priority ≥ a.priority := le_of_lt hlt
  unfold effPolicy at heff
  rw [if_neg hp] at heff
  constructor
  · unfold mergePolicy
    rw [if_neg hp, heff]
    simp only [reduceIte, String.reduceEq]
  · unfold mergePolicy
    rw [if_pos hq, heff]
    simp only [reduceIte, String.reduceEq]

theorem union_commands_of_ne {a b : CmdSet} {dup : Bool}
    (hne : a.priority ≠ b.priority) :
    (union a b dup).commands =
      a.commands ++ b.commands.filter (fun c => ! keyMemB a.commands c) := by
  unfold union
  show (if dup = true ∧ a.priority = b.priority then a.commands ++ b.commands
    else a.commands ++ b.commands.filter (fun c => ! keyMemB a.commands c)) =
    a.commands ++ b.commands.filter (fun c => ! keyMemB a.commands c)
  rw [if_neg (fun h => hne h.2)]

/-- Claim C4 counterexample: with unequal priorities, duplicates off
everywhere and effective policy Union, the lower-priority operand
`c4SetB`'s descriptor for the overlapping system key `__x` still
appears in the merge result (re-added by the system-command carve-out),
so the higher-priority operand's descriptor does not win that key
exclusively. -/
theorem c4_union_counterexample :
    (⟨"__x", 1⟩ : Cmd) ∈ (mergeSome c4SetA c4SetB).commands ∧
    (⟨"__x", 1⟩ : Cmd) ∈ c4SetB.commands ∧
    (⟨"__x", 1⟩ : Cmd) ∉ c4SetA.commands ∧
    c4SetB.priority < c4SetA.priority ∧
    effPolicy c4SetA c4SetB = "Union" ∧
    c4SetA.duplicates = false ∧ c4SetB.duplicates = false ∧
    keyMem "__x" c4SetA.commands := by
  decide

/-- Claim C4 (amended): with unequal priorities and duplicates off,
an effective-Union merge has key set `keys(H) ∪ keys(L)` in either
operand order; all of the higher-priority side's commands are present,
and a lower-priority command whose (non-system) key overlaps the
higher-priority side is excluded — overlapping system keys are instead
re-added from both sides.  On an exact priority tie with the right
operand's duplicates flag set, all commands of both operands are kept,
so same-key duplicates coexist. -/
theorem c4_union_content :
    (∀ a b : CmdSet, a.priority < b.priority → a.duplicates = false →
      b.duplicates = false → effPolicy a b = "Union" →
      (∀ k : String, keyMem k (mergeSome a b).commands ↔
        keyMem k a.commands ∨ keyMem k b.commands) ∧
      (∀ k : String, keyMem k (mergeSome b a).commands ↔
        keyMem k a.commands ∨ keyMem k b.commands) ∧
      (∀ c ∈ b.commands,
        c ∈ (mergeSome a b).commands ∧ c ∈ (mergeSome b a).commands) ∧
      (∀ c ∈ a.commands, isSystemKey c.key = false →
        keyMem c.key b.commands → c ∉ b.commands →
        c ∉ (mergeSome a b).commands ∧ c ∉ (mergeSome b a).commands)) ∧
    (∀ a b : CmdSet, a.priority = b.priority → b.duplicates = true →
      effPolicy a b = "Union" →
      (∀ c ∈ a.commands, c ∈ (mergeSome a b).commands) ∧
      (∀ c ∈ b.commands, c ∈ (mergeSome a b).commands)) := by
  constructor
  · intro a b hlt _ _ heff
    have hp : ¬ a.priority ≥ b.priority := not_le.2 hlt
    have hq : b.priority ≥ a.priority := le_of_lt hlt
    have hne : b.priority ≠ a.priority := (ne_of_lt hlt).symm
    have heff' : effPolicy b a = "Union" := by
      unfold effPolicy at heff ⊢
      rw [if_neg hp] at heff
      rw [if_pos hq]
      exact heff
    obtain ⟨hmp, hmp'⟩ := mergePolicy_union_low hlt heff
    have hcmds : (union b a a.duplicates).commands =
        b.commands ++ a.commands.filter (fun c => ! keyMemB b.commands c) :=
      union_commands_of_ne hne
    refine ⟨?_, ?_, ?_, ?_⟩
    · intro k
      rw [mergeSome_keyMem, heff]
      unfold policyKeyProp
      simp only [reduceIte, String.reduceEq]
      have hsa : keyMem k a.get_system_cmds → keyMem k a.commands :=
        sys_keyMem_imp
      have hsb : keyMem k b.get_system_cmds → keyMem k b.commands :=
        sys_keyMem_imp
      tauto
    · intro k
      rw [mergeSome_keyMem, heff']
      unfold policyKeyProp
      simp only [reduceIte, String.reduceEq]
      have hsa : keyMem k a.get_system_cmds → keyMem k a.commands :=
        sys_keyMem_imp
      have hsb : keyMem k b.get_system_cmds → keyMem k b.commands :=
        sys_keyMem_imp
      tauto
    · intro c hc
      constructor
      · rw [mergeSome_mem, hmp, hcmds]
        exact Or.inl (List.mem_append_left _ hc)
      · rw [mergeSome_mem, hmp', hcmds]
        exact Or.inl (List.mem_append_left _ hc)
    · intro c hca hns hkb hcb
      have hnotin : c ∉ (union b a a.duplicates).commands := by
        rw [hcmds, List.mem_append]
        rintro (h | h)
        · exact hcb h
        · have := (List.mem_filter.1 h).2
          rw [Bool.not_eq_true'] at this
          rw [keyMemB_false_iff] at this
          exact this hkb
      have hnosys : ∀ cs : CmdSet, c ∈ cs.get_system_cmds → False := by
        intro cs h
        rw [sys_mem_isSystem h] at hns
        exact Bool.noConfusion hns
      constructor
      · rw [mergeSome_mem, hmp]
        rintro (h | h | h)
        · exact hnotin h
        · exact hnosys a h
        · exact hnosys b h
      · rw [mergeSome_mem, hmp']
        rintro (h | h | h)
        · exact hnotin h
        · exact hnosys b h
        · exact hnosys a h
  · intro a b htie hdup heff
    have hp : a.priority ≥ b.priority := ge_of_eq htie
    have hmp : mergePolicy a b = union a b b.duplicates := by
      unfold mergePolicy
      unfold effPolicy at heff
      rw [if_pos hp] at heff
      rw [if_pos hp, heff]
      simp only [reduceIte, String.reduceEq]
    have hcmds : (union a b b.duplicates).commands =
        a.commands ++ b.commands := by
      unfold union
      show (if b.duplicates = true ∧ a.priority = b.priority then
          a.commands ++ b.commands
        else a.commands ++
          b.commands.filter (fun c => ! keyMemB a.commands c)) =
        a.commands ++ b.commands
      rw [if_pos ⟨hdup, htie⟩]
    constructor
    · intro c hc
      rw [mergeSome_mem, hmp, hcmds]
      exact Or.inl (List.mem_append_left _ hc)
    · intro c hc
      rw [mergeSome_mem, hmp, hcmds]
      exact Or.inl (List.mem_append_right _ hc)

/-- Claim C4 witness: concrete unequal-priority and tie-with-duplicates
Union merges exercising every hypothesis of the amended statement. -/
theorem c4_union_content_witness :
    (keyMem "p" (mergeSome c4wSetA c4wSetB).commands ↔
      keyMem "p" c4wSetA.commands ∨ keyMem "p" c4wSetB.commands) ∧
    ((⟨"q", 1⟩ : Cmd) ∈ (mergeSome c4wSetA c4wSetB).commands ∧
      (⟨"q", 1⟩ : Cmd) ∈ (mergeSome c4wSetB c4wSetA).commands) ∧
    (⟨"p", 2⟩ : Cmd) ∈ (mergeSome c4tSetA c4tSetB).commands ∧
    (⟨"p", 3⟩ : Cmd) ∈ (mergeSome c4tSetA c4tSetB).commands :=
  ⟨((c4_union_content.1 c4wSetA c4wSetB (by decide) (by decide) (by decide)
      (by decide)).1 "p"),
   ((c4_union_content.1 c4wSetA c4wSetB (by decide) (by decide) (by decide)
      (by decide)).2.2.1 ⟨"q", 1⟩ (by decide)),
   ((c4_union_content.2 c4tSetA c4tSetB (by decide) (by decide)
      (by decide)).1 ⟨"p", 2⟩ (by decide)),
   ((c4_union_content.2 c4tSetA c4tSetB (by decide) (by decide)
      (by decide)).2 ⟨"p", 3⟩ (by decide))⟩

theorem mergePolicy_intersect_high {a b : CmdSet}
    (hp : a.priority ≥ b.priority) (heff : effPolicy a b = "Intersect") :
    mergePolicy a b = intersect a b b.duplicates := by
  unfold effPolicy at heff
  rw [if_pos hp] at heff
  unfold mergePolicy
  rw [if_pos hp, heff]
  simp only [reduceIte, String.reduceEq]

theorem mergePolicy_intersect_low {a b : CmdSet}
    (hp : ¬ a.priority ≥ b.priority) (heff : effPolicy a b = "Intersect") :
    mergePolicy a b = intersect b a a.duplicates := by
  unfold effPolicy at heff
  rw [if_neg hp] at heff
  unfold mergePolicy
  rw [if_neg hp, heff]
  simp only [reduceIte, String.reduceEq]

theorem intersect_commands_nondup {x y : CmdSet} {dup : Bool}
    (h : ¬ (dup = true ∧ x.priority = y.priority)) :
    (intersect x y dup).commands =
      x.commands.filter (fun c => keyMemB y.commands c) := by
  unfold intersect
  rw [if_neg h]

theorem filter_keyMem_length_le {H L : List Cmd}
    (hk : (H.map Cmd.key).Nodup) :
    (H.filter (fun c => keyMemB L c)).length ≤ L.length := by
  have hFsub : (H.filter (fun c => keyMemB L c)).Sublist H :=
    List.filter_sublist _
  have hFkeys : ((H.filter (fun c => keyMemB L c)).map Cmd.key).Nodup :=
    List.Nodup.sublist (hFsub.map Cmd.key) hk
  have hsub : ((H.filter (fun c => keyMemB L c)).map Cmd.key) ⊆
      L.map Cmd.key := by
    intro k hkmem
    obtain ⟨c, hc, rfl⟩ := List.mem_map.1 hkmem
    obtain ⟨d, hd, hdk⟩ := keyMemB_iff.1 (List.mem_filter.1 hc).2
    exact List.mem_map.2 ⟨d, hd, hdk⟩
  have hlen := (List.subperm_of_subset hFkeys hsub).length_le
  rw [List.length_map, List.length_map] at hlen
  exact hlen

theorem mergeSome_commands_nosys {a b : CmdSet}
    (hsysa : a.get_system_cmds = []) (hsysb : b.get_system_cmds = []) :
    (mergeSome a b).commands = (mergePolicy a b).commands := by
  unfold mergeSome
  rw [hsysa, hsysb]
  rfl

/-- Claim C5 counterexample: `c5SetA` (Intersect, commands `__x` and
`a`) merged on a priority tie with `c5SetB` (one command `a`, duplicates
allowed) yields three commands — both `a` descriptors plus the re-added
system command `__x` — so the key set strictly exceeds
`keys(A) ∩ keys(B) = {a}` and the size exceeds `min(|A|,|B|) = 1`. -/
theorem c5_intersect_counterexample :
    (mergeSome c5SetA c5SetB).commands =
      [⟨"a", 1⟩, ⟨"a", 2⟩, ⟨"__x", 0⟩] ∧
    effPolicy c5SetA c5SetB = "Intersect" ∧
    ¬ keyMem "__x" c5SetB.commands ∧
    keyMem "__x" (mergeSome c5SetA c5SetB).commands ∧
    min c5SetA.commands.length c5SetB.commands.length = 1 := by
  decide

/-- Claim C5 (amended): under effective policy Intersect the result's
key set is `keys(A) ∩ keys(B)` together with both operands' system-
command keys; when neither operand has system commands and the
tie-with-duplicates exception does not trigger, the result consists of
the higher-priority side's copies of keys also present in the other
side and its size is at most `min(|A|,|B|)` (given per-set key
uniqueness); on an exact priority tie with the right operand's
duplicates flag set, both sides' descriptors are included for every
shared key. -/
theorem c5_intersect_content :
    (∀ a b : CmdSet, effPolicy a b = "Intersect" →
      ∀ k : String, keyMem k (mergeSome a b).commands ↔
        (keyMem k a.commands ∧ keyMem k b.commands) ∨
          keyMem k a.get_system_cmds ∨ keyMem k b.get_system_cmds) ∧
    (∀ a b : CmdSet, effPolicy a b = "Intersect" →
      a.get_system_cmds = [] → b.get_system_cmds = [] →
      ¬ (b.duplicates = true ∧ a.priority = b.priority) →
      (a.commands.map Cmd.key).Nodup → (b.commands.map Cmd.key).Nodup →
      (mergeSome a b).commands.length ≤
        min a.commands.length b.commands.length) ∧
    (∀ a b : CmdSet, effPolicy a b = "Intersect" →
      a.get_system_cmds = [] → b.get_system_cmds = [] →
      ¬ (b.duplicates = true ∧ a.priority = b.priority) →
      ∀ c ∈ (mergeSome a b).commands,
        c ∈ (highSet a b).commands ∧ keyMem c.key (lowSet a b).commands) ∧
    (∀ a b : CmdSet, effPolicy a b = "Intersect" →
      a.priority = b.priority → b.duplicates = true →
      ∀ k : String, keyMem k a.commands → keyMem k b.commands →
        (∃ c ∈ (mergeSome a b).commands, c.key = k ∧ c ∈ a.commands) ∧
        (∃ c ∈ (mergeSome a b).commands, c.key = k ∧ c ∈ b.commands)) := by
  refine ⟨?_, ?_, ?_, ?_⟩
  · intro a b heff k
    rw [mergeSome_keyMem, heff]
    unfold policyKeyProp
    simp only [reduceIte, String.reduceEq]
  · intro a b heff hsysa hsysb hnd hka hkb
    rw [mergeSome_commands_nosys hsysa hsysb]
    by_cases hp : a.priority ≥ b.priority
    · rw [mergePolicy_intersect_high hp heff, intersect_commands_nondup hnd]
      apply le_min
      · exact List.length_filter_le _ _
      · exact filter_keyMem_length_le hka
    · have hne : ¬ (a.duplicates = true ∧ b.priority = a.priority) := by
        rintro ⟨_, hpe⟩
        exact hp (ge_of_eq hpe.symm)
      rw [mergePolicy_intersect_low hp heff, intersect_commands_nondup hne]
      apply le_min
      · exact filter_keyMem_length_le hkb
      · exact List.length_filter_le _ _
  · intro a b heff hsysa hsysb hnd c hc
    rw [mergeSome_commands_nosys hsysa hsysb] at hc
    by_cases hp : a.priority ≥ b.priority
    · rw [mergePolicy_intersect_high hp heff,
        intersect_commands_nondup hnd] at hc
      rw [List.mem_filter] at hc
      unfold highSet lowSet
      rw [if_pos hp, if_pos hp]
      exact ⟨hc.1, keyMemB_iff.1 hc.2⟩
    · have hne : ¬ (a.duplicates = true ∧ b.priority = a.priority) := by
        rintro ⟨_, hpe⟩
        exact hp (ge_of_eq hpe.symm)
      rw [mergePolicy_intersect_low hp heff,
        intersect_commands_nondup hne] at hc
      rw [List.mem_filter] at hc
      unfold highSet lowSet
      rw [if_neg hp, if_neg hp]
      exact ⟨hc.1, keyMemB_iff.1 hc.2⟩
  · intro a b heff htie hdup k hka hkb
    have hp : a.priority ≥ b.priority := ge_of_eq htie
    have hmp : mergePolicy a b = intersect a b b.duplicates :=
      mergePolicy_intersect_high hp heff
    obtain ⟨ca, hcaa, rfl⟩ := hka
    have hmb : keyMemB b.commands ca = true := keyMemB_iff.2 hkb
    have hshared : ca ∈ a.commands.filter (fun c => keyMemB b.commands c) :=
      List.mem_filter.2 ⟨hcaa, hmb⟩
    have hint : (intersect a b b.duplicates).commands =
        ((a.commands.filter (fun c => keyMemB b.commands c)).foldl
          (fun acc c => (acc.add (some c)).add (b.get c))
          a.copy_this).commands := by
      unfold intersect
      rw [if_pos ⟨hdup, htie⟩]
    constructor
    · refine ⟨ca, ?_, rfl, hcaa⟩
      rw [mergeSome_mem, hmp, hint]
      refine Or.inl ((pairsFold_mem _ _ ca).2 ?_)
      exact Or.inr ⟨ca, hshared, Or.inl rfl⟩
    · obtain ⟨d, hd⟩ := get_isSome_of_keyMemB hmb
      refine ⟨d, ?_, get_key_eq hd, get_mem hd⟩
      rw [mergeSome_mem, hmp, hint]
      refine Or.inl ((pairsFold_mem _ _ d).2 ?_)
      exact Or.inr ⟨ca, hshared, Or.inr hd⟩

/-- Claim C5 witness: a concrete unequal-priority Intersect merge with
no system commands obeys the key-set, size and higher-priority-copy
statements, and a concrete tie-with-duplicates merge contains both
descriptors of the shared key `s`. -/
theorem c5_intersect_content_witness :
    (keyMem "s" (mergeSome c5wSetA c5wSetB).commands ↔
      (keyMem "s" c5wSetA.commands ∧ keyMem "s" c5wSetB.commands) ∨
        keyMem "s" c5wSetA.get_system_cmds ∨
        keyMem "s" c5wSetB.get_system_cmds) ∧
    (mergeSome c5wSetA c5wSetB).commands.length ≤
      min c5wSetA.commands.length c5wSetB.commands.length ∧
    ((∃ c ∈ (mergeSome c5tSetA c5tSetB).commands,
        c.key = "s" ∧ c ∈ c5tSetA.commands) ∧
      (∃ c ∈ (mergeSome c5tSetA c5tSetB).commands,
        c.key = "s" ∧ c ∈ c5tSetB.commands)) :=
  ⟨c5_intersect_content.1 c5wSetA c5wSetB (by decide) "s",
   c5_intersect_content.2.1 c5wSetA c5wSetB (by decide) (by decide)
     (by decide) (by decide) (by decide) (by decide),
   c5_intersect_content.2.2.2 c5tSetA c5tSetB (by decide) (by decide)
     (by decide) "s" (by decide) (by decide)⟩

/-- Claim C7: the compiled special-character class does not contain the
backslash (the `"\\"` entry of `SPECIAL_CHARS` is swallowed as a regex
escape of the following apostrophe), so the input `\x` — whose first
character is a boundary character according to the claim's set — does
not short-circuit: the single produced candidate has name `\x` (a name
containing a boundary character) and empty argument text, instead of
the claimed name `\` with argument text `x`. -/
theorem c7_backslash_boundary_eval :
    isSpecialChar '\\' = false ∧
    cmdparser 10 ['\\', 'x'] =
      some [{ cmdname := ['\\', 'x'], args := [], priority := 0,
              obj_key := none }] ∧
    cmdparser 10 ['\\', 'x'] ≠
      some [{ cmdname := ['\\'], args := ['x'], priority := 0,
              obj_key := none }] := by
  decide

/-- Claim C10: an input that trims to nothing parses to the empty
candidate sequence and raises no error. -/
theorem c10_empty_input (maxlen : Nat) (raw : List Char)
    (h : pyStrip raw = []) : cmdparser maxlen raw = some [] := by
  unfold cmdparser
  rw [cmdparserFuel, h]
  simp [cmdparserTail, produceCandidates, pcGo, pySplitNone, splitAnyWSGo,
    splitSpace, splitSpaceGo, Nat.min_zero, List.findIdx?]

/-- Claim C10 witness: a whitespace-only input yields zero candidates. -/
theorem c10_empty_input_witness :
    pyStrip "   ".data = [] ∧ cmdparser 3 "   ".data = some [] :=
  ⟨by decide, c10_empty_input 3 "   ".data (by decide)⟩

theorem pcGo_spec :
    ∀ (k : Nat) (acc wl : List (List Char)) (n : Nat), k ≤ wl.length →
      ∃ cs, pcGo k acc wl n = some cs ∧ cs.length = k ∧
        ∀ i : Nat, i < k →
          cs.get? i = some ⟨joinSpace ((acc ++ wl.take (i + 1)).map normWord),
            buildArgs (wl.drop (i + 1)), n + i, none⟩ := by
  intro k
  induction k with
  | zero =>
    intro acc wl n _
    exact ⟨[], rfl, rfl, fun i hi => absurd hi (Nat.not_lt_zero i)⟩
  | succ k ih =>
    intro acc wl n hk
    match wl with
    | [] => exact absurd hk (by simp)
    | w :: rest =>
      have hk' : k ≤ rest.length := Nat.succ_le_succ_iff.1 hk
      obtain ⟨cs, hcs, hlen, hidx⟩ := ih (acc ++ [w]) rest (n + 1) hk'
      have heq : pcGo (k + 1) acc (w :: rest) n =
          (pcGo k (acc ++ [w]) rest (n + 1)).map
            (fun cs => ⟨joinSpace ((acc ++ [w]).map normWord),
              buildArgs rest, n, none⟩ :: cs) := rfl
      refine ⟨_, by rw [heq, hcs]; rfl, by simp [hlen], ?_⟩
      intro i hi
      cases i with
      | zero => rfl
      | succ i =>
        have hi' : i < k := Nat.succ_lt_succ_iff.1 hi
        have hstep : ((⟨joinSpace ((acc ++ [w]).map normWord),
            buildArgs rest, n, none⟩ : CommandCandidate)
              :: cs).get? (i + 1) = cs.get? i := rfl
        rw [hstep, hidx i hi']
        congr 1
        have htk : (w :: rest).take (i + 1 + 1) = w :: rest.take (i + 1) :=
          rfl
        have hdp : (w :: rest).drop (i + 1 + 1) = rest.drop (i + 1) := rfl
        rw [htk, hdp]
        have hpr : n + 1 + i = n + (i + 1) := by omega
        have hap : acc ++ [w] ++ rest.take (i + 1) =
            acc ++ (w :: rest.take (i + 1)) := by
          rw [List.append_assoc]
          rfl
        rw [hpr, hap]

/-- Claim C8 counterexample: with word budget 1 and an empty word list
the generation loop pops from an empty list and raises IndexError
(modelled as `none`), so it does not produce one candidate. -/
theorem c8_empty_pop_counterexample : produceCandidates 1 [] = none := rfl

/-- Claim C8 (amended): given a word budget `k` and a word list with at
least `k` words, exactly `k` candidates are produced, the `i`-th taking
the first `i+1` words (stripped, lowercased, joined by single spaces)
as its name, the glue-reconstructed remaining words as argument text,
and specificity `i`; with `max_words = 3`, `"hit orc with sword"`
yields exactly the three expected candidates in increasing-specificity
order. -/
theorem c8_candidate_generation :
    (∀ (k : Nat) (wl : List (List Char)), k ≤ wl.length →
      ∃ cs, produceCandidates k wl = some cs ∧ cs.length = k ∧
        ∀ i : Nat, i < k →
          cs.get? i = some ⟨joinSpace ((wl.take (i + 1)).map normWord),
            buildArgs (wl.drop (i + 1)), i, none⟩) ∧
    cmdparser 3 "hit orc with sword".data = some
      [⟨"hit".data, "orc with sword".data, 0, none⟩,
       ⟨"hit orc".data, "with sword".data, 1, none⟩,
       ⟨"hit orc with".data, "sword".data, 2, none⟩] := by
  constructor
  · intro k wl hk
    obtain ⟨cs, h1, h2, h3⟩ := pcGo_spec k [] wl 0 hk
    refine ⟨cs, h1, h2, ?_⟩
    intro i hi
    have := h3 i hi
    simpa using this
  · decide

/-- Claim C8 witness: budget 2 over the two-word list `["a", "bc"]`. -/
theorem c8_candidate_generation_witness :
    2 ≤ ([['a'], ['b', 'c']] : List (List Char)).length ∧
    (∃ cs, produceCandidates 2 [['a'], ['b', 'c']] = some cs ∧
      cs.length = 2 ∧
      ∀ i : Nat, i < 2 →
        cs.get? i = some ⟨joinSpace ((([['a'], ['b', 'c']] :
            List (List Char)).take (i + 1)).map normWord),
          buildArgs (([['a'], ['b', 'c']] :
            List (List Char)).drop (i + 1)), i, none⟩) :=
  ⟨by decide, c8_candidate_generation.1 2 [['a'], ['b', 'c']] (by decide)⟩

theorem pyStrip_length_le (l : List Char) : (pyStrip l).length ≤ l.length := by
  unfold pyStrip
  calc ((l.dropWhile isPyWS).reverse.dropWhile isPyWS).reverse.length
      = ((l.dropWhile isPyWS).reverse.dropWhile isPyWS).length :=
        List.length_reverse _
    _ ≤ (l.dropWhile isPyWS).reverse.length :=
        (List.dropWhile_sublist isPyWS).length_le
    _ = (l.dropWhile isPyWS).length := List.length_reverse _
    _ ≤ l.length := (List.dropWhile_sublist isPyWS).length_le

theorem pcGo_obj_none :
    ∀ (k : Nat) (acc wl : List (List Char)) (n : Nat)
      (cs : List CommandCandidate), pcGo k acc wl n = some cs →
      ∀ c ∈ cs, c.obj_key = none := by
  intro k
  induction k with
  | zero =>
    intro acc wl n cs h c hc
    cases h
    exact absurd hc (List.not_mem_nil c)
  | succ k ih =>
    intro acc wl n cs h c hc
    match wl, h with
    | [], h => exact Option.noConfusion h
    | w :: rest, h =>
      rw [show pcGo (k + 1) acc (w :: rest) n =
          (pcGo k (acc ++ [w]) rest (n + 1)).map
            (fun cs => (⟨joinSpace ((acc ++ [w]).map normWord),
              buildArgs rest, n, none⟩ : CommandCandidate) :: cs)
          from rfl] at h
      obtain ⟨cs', hcs', rfl⟩ := Option.map_eq_some'.1 h
      rcases List.mem_cons.1 hc with rfl | hc'
      · rfl
      · exact ih (acc ++ [w]) rest (n + 1) cs' hcs' c hc'

theorem produceCandidates_obj_none (nr : Nat) (wl : List (List Char))
    (cs : List CommandCandidate) (h : produceCandidates nr wl = some cs) :
    ∀ c ∈ cs, c.obj_key = none := pcGo_obj_none nr [] wl 0 cs h

theorem cmdparserFuel_congr :
    ∀ (f g maxlen : Nat) (raw : List Char),
      raw.length < f → raw.length < g →
      cmdparserFuel f maxlen raw = cmdparserFuel g maxlen raw := by
  intro f
  induction f with
  | zero => intro g maxlen raw hf _; exact absurd hf (Nat.not_lt_zero _)
  | succ f ih =>
    intro g maxlen raw hf hg
    cases g with
    | zero => exact absurd hg (Nat.not_lt_zero _)
    | succ g =>
      cases hidx : (pyStrip raw).findIdx? (fun c => isSpecialChar c) with
      | none => simp only [cmdparserFuel, hidx]
      | some p =>
        cases p with
        | zero => simp only [cmdparserFuel, hidx]
        | succ p =>
          simp only [cmdparserFuel, hidx]
          by_cases hcond : (pyStrip raw).get? (p + 1) = some '\'' ∧
              (pyStrip raw).get? (p + 2) = some 's' ∧
              (pyStrip raw).get? (p + 3) = some ' '
          · rw [if_pos hcond, if_pos hcond]
            obtain ⟨hplt, _⟩ := List.get?_eq_some.1 hcond.2.2
            have hslen : (pyStrip raw).length ≤ raw.length :=
              pyStrip_length_le raw
            have hdrop : ((pyStrip raw).drop (p + 3)).length =
                (pyStrip raw).length - (p + 3) := List.length_drop _ _
            rw [ih g maxlen _ (by omega) (by omega)]
          · rw [if_neg hcond, if_neg hcond]

/-- Claim C9 counterexample: `"a\tb\tc\td's x"` is of the claimed
`<word>'s <rest>` shape (first special character is the apostrophe at
position 7, followed by `s` and a space), yet the parser raises
IndexError (modelled as `none`) instead of producing the qualified and
unqualified candidate families: the tab-separated prefix has more
whitespace-separated words than the space-split word list supplies. -/
theorem c9_tab_crash_counterexample :
    cmdparser 10 "a\tb\tc\td's x".data = none ∧
    (pyStrip "a\tb\tc\td's x".data).findIdx?
      (fun c => isSpecialChar c) = some 7 ∧
    (pyStrip "a\tb\tc\td's x".data).get? 7 = some '\'' ∧
    (pyStrip "a\tb\tc\td's x".data).get? 8 = some 's' ∧
    (pyStrip "a\tb\tc\td's x".data).get? 9 = some ' ' := by
  decide

/-- Claim C9 (amended): whenever the parse returns normally and the
first special character of the stripped input is an apostrophe at
position `p > 0` followed by `"s "`, the result is exactly the
candidates of the recursive parse of the remainder after `'s`, each
tagged with the text before the apostrophe as `obj_key`, followed by
the non-recursive candidates, all of which carry no qualifier; on
inputs of that shape whose tab-separated prefix outruns the space-split
word list the parser instead raises IndexError.  Concretely,
`"red door's push hard"` yields the two `"red door"`-qualified
candidates first and the two unqualified ones after. -/
theorem c9_object_qualifier :
    (∀ (maxlen : Nat) (raw : List Char) (res : List CommandCandidate)
        (p : Nat),
      cmdparser maxlen raw = some res →
      (pyStrip raw).findIdx? (fun c => isSpecialChar c) = some p →
      0 < p →
      (pyStrip raw).get? p = some '\'' →
      (pyStrip raw).get? (p + 1) = some 's' →
      (pyStrip raw).get? (p + 2) = some ' ' →
      ∃ alt rest,
        cmdparser maxlen ((pyStrip raw).drop (p + 2)) = some alt ∧
        res = alt.map
          (fun c => { c with obj_key := some ((pyStrip raw).take p) })
          ++ rest ∧
        ∀ c ∈ rest, c.obj_key = none) ∧
    cmdparser 3 "red door's push hard".data = some
      [⟨"push".data, "hard".data, 0, some "red door".data⟩,
       ⟨"push hard".data, [], 1, some "red door".data⟩,
       ⟨"red".data, "door's push hard".data, 0, none⟩,
       ⟨"red door".data, "'s push hard".data, 1, none⟩] := by
  constructor
  · intro maxlen raw res p hres hfind hp hq hs hsp
    obtain ⟨q, rfl⟩ : ∃ q, p = q + 1 := ⟨p - 1, by omega⟩
    unfold cmdparser at hres
    simp only [cmdparserFuel, hfind] at hres
    have hcond : (pyStrip raw).get? (q + 1) = some '\'' ∧
        (pyStrip raw).get? (q + 2) = some 's' ∧
        (pyStrip raw).get? (q + 3) = some ' ' := ⟨hq, hs, hsp⟩
    rw [if_pos hcond] at hres
    unfold cmdparserMid at hres
    obtain ⟨altT, haltT, hbind⟩ := Option.bind_eq_some.1 hres
    obtain ⟨alt0, halt0, rfl⟩ := Option.map_eq_some'.1 haltT
    obtain ⟨hqlt, _⟩ := List.get?_eq_some.1 hsp
    have hslen : (pyStrip raw).length ≤ raw.length := pyStrip_length_le raw
    have hdrop : ((pyStrip raw).drop (q + 3)).length =
        (pyStrip raw).length - (q + 3) := List.length_drop _ _
    have hcp : cmdparser maxlen ((pyStrip raw).drop (q + 3)) = some alt0 := by
      unfold cmdparser
      rw [cmdparserFuel_congr (((pyStrip raw).drop (q + 3)).length + 1)
        raw.length maxlen _ (by omega) (by omega)]
      exact halt0
    have hrest : ∃ rest,
        res = List.map (fun c =>
          { c with obj_key := some ((pyStrip raw).take (q + 1)) }) alt0
          ++ rest ∧
        ∀ c ∈ rest, c.obj_key = none := by
      by_cases hnr :
          (pySplitNone ((pyStrip raw).take (q + 1))).length ≤ maxlen
      · rw [if_pos hnr] at hbind
        obtain ⟨cs, hcs, hres2⟩ := Option.map_eq_some'.1 hbind
        exact ⟨cs, hres2.symm, produceCandidates_obj_none _ _ _ hcs⟩
      · rw [if_neg hnr] at hbind
        obtain ⟨cs, hcs, hres2⟩ := Option.map_eq_some'.1 hbind
        unfold cmdparserTail at hcs
        exact ⟨cs, hres2.symm, produceCandidates_obj_none _ _ _ hcs⟩
    obtain ⟨rest, hres_eq, hrest_none⟩ := hrest
    exact ⟨alt0, rest, hcp, hres_eq, hrest_none⟩
  · decide

/-- Claim C9 witness: the input `"ab's cd"` with the apostrophe at
position 2 returns one `"ab"`-qualified candidate and one unqualified
candidate. -/
theorem c9_object_qualifier_witness :
    ∃ alt rest,
      cmdparser 3 ((pyStrip "ab's cd".data).drop (2 + 2)) = some alt ∧
      ([⟨"cd".data, [], 0, some "ab".data⟩,
        ⟨"ab".data, "'s cd".data, 0, none⟩] : List CommandCandidate) =
        alt.map (fun c =>
          { c with obj_key := some ((pyStrip "ab's cd".data).take 2) })
          ++ rest ∧
      ∀ c ∈ rest, c.obj_key = none :=
  c9_object_qualifier.1 3 "ab's cd".data
    [⟨"cd".data, [], 0, some "ab".data⟩, ⟨"ab".data, "'s cd".data, 0, none⟩]
    2 (by decide) (by decide) (by decide) (by decide) (by decide) (by decide)

theorem presBelow_refl {n m : Nat} {h : Heap} (hn : n ≤ h.lists.length)
    (hm : m ≤ h.sets.length) : PresBelow n m h h :=
  ⟨hn, hm, fun _ _ => rfl, fun _ _ => rfl⟩

theorem presBelow_trans {n m : Nat} {h1 h2 h3 : Heap}
    (hab : PresBelow n m h1 h2) (hbc : PresBelow n m h2 h3) :
    PresBelow n m h1 h3 :=
  ⟨hbc.1, hbc.2.1, fun i hi => (hbc.2.2.1 i hi).trans (hab.2.2.1 i hi),
   fun j hj => (hbc.2.2.2 j hj).trans (hab.2.2.2 j hj)⟩

theorem presBelow_allocList {n m : Nat} {h : Heap} {l : List Cmd}
    (hn : n ≤ h.lists.length) (hm : m ≤ h.sets.length) :
    PresBelow n m h (allocList h l).1 := by
  refine ⟨?_, hm, ?_, fun j _ => rfl⟩
  · show n ≤ (h.lists ++ [l]).length
    rw [List.length_append]
    omega
  · intro i hi
    show (h.lists ++ [l])[i]? = h.lists[i]?
    exact List.getElem?_append_left (by omega)

theorem presBelow_allocSet {n m : Nat} {h : Heap} {s : SetRec}
    (hn : n ≤ h.lists.length) (hm : m ≤ h.sets.length) :
    PresBelow n m h (allocSet h s).1 := by
  refine ⟨hn, ?_, fun i _ => rfl, ?_⟩
  · show m ≤ (h.sets ++ [s]).length
    rw [List.length_append]
    omega
  · intro j hj
    show (h.sets ++ [s])[j]? = h.sets[j]?
    exact List.getElem?_append_left (by omega)

theorem presBelow_writeList {n m : Nat} {h : Heap} {r : Nat} {l : List Cmd}
    (hr : n ≤ r) (hn : n ≤ h.lists.length) (hm : m ≤ h.sets.length) :
    PresBelow n m h (writeListH h r l) := by
  refine ⟨?_, hm, ?_, fun j _ => rfl⟩
  · show n ≤ (h.lists.set r l).length
    rw [List.length_set]
    exact hn
  · intro i hi
    show (h.lists.set r l)[i]? = h.lists[i]?
    exact List.getElem?_set_ne (by omega)

theorem presBelow_writeSet {n m : Nat} {h : Heap} {r : Nat} {s : SetRec}
    (hr : m ≤ r) (hn : n ≤ h.lists.length) (hm : m ≤ h.sets.length) :
    PresBelow n m h (writeSetH h r s) := by
  refine ⟨hn, ?_, fun i _ => rfl, ?_⟩
  · show m ≤ (h.sets.set r s).length
    rw [List.length_set]
    exact hm
  · intro j hj
    show (h.sets.set r s)[j]? = h.sets[j]?
    exact List.getElem?_set_ne (by omega)

theorem readSetH_writeSetH_self {h : Heap} {cref : Nat} {s : SetRec}
    (hcs : cref < h.sets.length) :
    readSetH (writeSetH h cref s) cref = s := by
  unfold readSetH writeSetH
  show ((h.sets.set cref s)[cref]?).getD defaultSetRec = s
  rw [List.getElem?_set_self hcs]
  rfl

theorem writeSet_ok {n m : Nat} {h : Heap} {cref : Nat} {s : SetRec}
    (hmc : m ≤ cref) (hcs : cref < h.sets.length)
    (hn : n ≤ h.lists.length) (hm : m ≤ h.sets.length)
    (hsr : n ≤ s.commandsRef) (hsl : s.commandsRef < h.lists.length) :
    PresBelow n m h (writeSetH h cref s) ∧
      FreshFor n m (writeSetH h cref s) cref := by
  refine ⟨presBelow_writeSet hmc hn hm, hmc, ?_, ?_, ?_⟩
  · show cref < (h.sets.set cref s).length
    rw [List.length_set]
    exact hcs
  · rw [readSetH_writeSetH_self hcs]
    exact hsr
  · rw [readSetH_writeSetH_self hcs]
    exact hsl

theorem freshFor_writeList {n m : Nat} {h : Heap} {cref r : Nat}
    {l : List Cmd} (hf : FreshFor n m h cref) :
    FreshFor n m (writeListH h r l) cref := by
  obtain ⟨h1, h2, h3, h4⟩ := hf
  refine ⟨h1, h2, ?_, ?_⟩
  · show n ≤ (readSetH h cref).commandsRef
    exact h3
  · show (readSetH h cref).commandsRef < (h.lists.set r l).length
    rw [List.length_set]
    exact h4

theorem addH_ok {n m : Nat} {h : Heap} {cref : Nat}
    (hf : FreshFor n m h cref) (c : Option Cmd) :
    PresBelow n m h (addH h cref c) ∧ FreshFor n m (addH h cref c) cref := by
  obtain ⟨hmc, hcs, hnr, hrl⟩ := hf
  have hn : n ≤ h.lists.length := le_trans hnr (le_of_lt hrl)
  have hm : m ≤ h.sets.length := le_trans hmc (le_of_lt hcs)
  cases c with
  | none => exact ⟨presBelow_refl hn hm, hmc, hcs, hnr, hrl⟩
  | some c =>
    show PresBelow n m h
        (writeSetH (allocList (writeListH h (readSetH h cref).commandsRef
            (readListH h (readSetH h cref).commandsRef ++ [c]))
          (dedupKeepFirst (readListH (writeListH h
            (readSetH h cref).commandsRef
            (readListH h (readSetH h cref).commandsRef ++ [c]))
            (readSetH h cref).commandsRef))).1 cref
          { readSetH (allocList (writeListH h (readSetH h cref).commandsRef
              (readListH h (readSetH h cref).commandsRef ++ [c]))
              (dedupKeepFirst (readListH (writeListH h
                (readSetH h cref).commandsRef
                (readListH h (readSetH h cref).commandsRef ++ [c]))
                (readSetH h cref).commandsRef))).1 cref with
            commandsRef := (allocList (writeListH h
              (readSetH h cref).commandsRef
              (readListH h (readSetH h cref).commandsRef ++ [c]))
              (dedupKeepFirst (readListH (writeListH h
                (readSetH h cref).commandsRef
                (readListH h (readSetH h cref).commandsRef ++ [c]))
                (readSetH h cref).commandsRef))).2 }) ∧
      FreshFor n m _ cref
    set r := (readSetH h cref).commandsRef with hr
    set h1 := writeListH h r (readListH h r ++ [c]) with hh1
    have hp1 : PresBelow n m h h1 := presBelow_writeList hnr hn hm
    have hn1 : n ≤ h1.lists.length := hp1.1
    have hm1 : m ≤ h1.sets.length := hp1.2.1
    set dl := dedupKeepFirst (readListH h1 r) with hdl
    have hp2 : PresBelow n m h1 (allocList h1 dl).1 :=
      presBelow_allocList hn1 hm1
    have hsets12 : (allocList h1 dl).1.sets = h.sets := rfl
    have hlen2 : (allocList h1 dl).1.lists.length = h1.lists.length + 1 := by
      show (h1.lists ++ [dl]).length = h1.lists.length + 1
      rw [List.length_append]
      rfl
    have hlen1 : h1.lists.length = h.lists.length := by
      show (h.lists.set r _).length = h.lists.length
      rw [List.length_set]
    have hw := writeSet_ok (n := n) (m := m)
      (h := (allocList h1 dl).1)
      (s := { readSetH (allocList h1 dl).1 cref with
              commandsRef := (allocList h1 dl).2 })
      hmc (by rw [hsets12]; exact hcs) (by omega)
      (by rw [hsets12]; exact hm)
      (by show n ≤ h1.lists.length; omega)
      (by show h1.lists.length < (allocList h1 dl).1.lists.length; omega)
    exact ⟨presBelow_trans (presBelow_trans hp1 hp2) hw.1, hw.2⟩

theorem allocSet_fresh {n m : Nat} {h : Heap} {s : SetRec}
    (hm : m ≤ h.sets.length) (hs1 : n ≤ s.commandsRef)
    (hs2 : s.commandsRef < h.lists.length) :
    FreshFor n m (allocSet h s).1 (allocSet h s).2 := by
  have hread : readSetH (allocSet h s).1 (allocSet h s).2 = s := by
    unfold readSetH allocSet
    show ((h.sets ++ [s])[h.sets.length]?).getD defaultSetRec = s
    rw [List.getElem?_concat_length]
    rfl
  refine ⟨hm, ?_, ?_, ?_⟩
  · show h.sets.length < (h.sets ++ [s]).length
    simp
  · rw [hread]
    exact hs1
  · rw [hread]
    exact hs2

theorem copyThis_ok {n m : Nat} {h : Heap} {aref : Nat}
    (hn : n ≤ h.lists.length) (hm : m ≤ h.sets.length) :
    PresBelow n m h (copyThisH h aref).1 ∧
      FreshFor n m (copyThisH h aref).1 (copyThisH h aref).2 := by
  have hp1 : PresBelow n m h (allocList h []).1 := presBelow_allocList hn hm
  constructor
  · exact presBelow_trans hp1 (presBelow_allocSet hp1.1 hp1.2.1)
  · apply allocSet_fresh hp1.2.1
    · show n ≤ h.lists.length
      exact hn
    · show h.lists.length < (h.lists ++ [([] : List Cmd)]).length
      simp

theorem repoint_ok {n m : Nat} {h1 : Heap} {cref : Nat} {X : List Cmd}
    (hf : FreshFor n m h1 cref) :
    PresBelow n m h1 (writeSetH (allocList h1 X).1 cref
      { readSetH (allocList h1 X).1 cref with
        commandsRef := (allocList h1 X).2 }) ∧
    FreshFor n m (writeSetH (allocList h1 X).1 cref
      { readSetH (allocList h1 X).1 cref with
        commandsRef := (allocList h1 X).2 }) cref := by
  obtain ⟨hmc, hcs, hnr, hrl⟩ := hf
  have hn1 : n ≤ h1.lists.length := le_trans hnr (le_of_lt hrl)
  have hm1 : m ≤ h1.sets.length := le_trans hmc (le_of_lt hcs)
  have hp2 : PresBelow n m h1 (allocList h1 X).1 := presBelow_allocList hn1 hm1
  have hsets : (allocList h1 X).1.sets = h1.sets := rfl
  have hlen : (allocList h1 X).1.lists.length = h1.lists.length + 1 := by
    show (h1.lists ++ [X]).length = _
    simp
  have ha1 : cref < (allocList h1 X).1.sets.length := by
    rw [hsets]
    exact hcs
  have ha2 : n ≤ (allocList h1 X).1.lists.length := by omega
  have ha3 : m ≤ (allocList h1 X).1.sets.length := by
    rw [hsets]
    exact hm1
  have ha4 : n ≤ ({ readSetH (allocList h1 X).1 cref with
      commandsRef := (allocList h1 X).2 } : SetRec).commandsRef := by
    show n ≤ h1.lists.length
    omega
  have ha5 : ({ readSetH (allocList h1 X).1 cref with
      commandsRef := (allocList h1 X).2 } : SetRec).commandsRef <
      (allocList h1 X).1.lists.length := by
    show h1.lists.length < (allocList h1 X).1.lists.length
    omega
  have hw := writeSet_ok hmc ha1 ha2 ha3 ha4 ha5
  exact ⟨presBelow_trans hp2 hw.1, hw.2⟩

theorem unionH_ok {n m : Nat} {h : Heap} {aref bref : Nat} {dup : Bool}
    (hn : n ≤ h.lists.length) (hm : m ≤ h.sets.length) :
    PresBelow n m h (unionH h aref bref dup).1 ∧
      FreshFor n m (unionH h aref bref dup).1 (unionH h aref bref dup).2 := by
  obtain ⟨p0, f0⟩ := @copyThis_ok n m h aref hn hm
  obtain ⟨p1, f1⟩ := repoint_ok (X := commandsOfH (copyThisH h aref).1 aref) f0
  have hr : n ≤ (allocList (copyThisH h aref).1
      (commandsOfH (copyThisH h aref).1 aref)).2 := p0.1
  exact ⟨presBelow_trans (presBelow_trans p0 p1)
      (presBelow_writeList hr p1.1 p1.2.1),
    freshFor_writeList f1⟩

theorem replaceH_ok {n m : Nat} {h : Heap} {aref bref : Nat}
    (hn : n ≤ h.lists.length) (hm : m ≤ h.sets.length) :
    PresBelow n m h (replaceH h aref bref).1 ∧
      FreshFor n m (replaceH h aref bref).1 (replaceH h aref bref).2 := by
  obtain ⟨p0, f0⟩ := @copyThis_ok n m h aref hn hm
  obtain ⟨p1, f1⟩ := repoint_ok (X := commandsOfH (copyThisH h aref).1 aref) f0
  exact ⟨presBelow_trans p0 p1, f1⟩

theorem removeH_ok {n m : Nat} {h : Heap} {aref bref : Nat}
    (hn : n ≤ h.lists.length) (hm : m ≤ h.sets.length) :
    PresBelow n m h (removeH h aref bref).1 ∧
      FreshFor n m (removeH h aref bref).1 (removeH h aref bref).2 := by
  obtain ⟨p0, f0⟩ := @copyThis_ok n m h aref hn hm
  obtain ⟨p1, f1⟩ := repoint_ok
    (X := (commandsOfH (copyThisH h aref).1 bref).filter
      (fun c => ! keyMemB (commandsOfH (copyThisH h aref).1 aref) c)) f0
  exact ⟨presBelow_trans p0 p1, f1⟩

theorem sysFoldH_ok {n m cref : Nat} :
    ∀ (S : List Cmd) (h : Heap), FreshFor n m h cref →
      PresBelow n m h (S.foldl (fun hh c => addH hh cref (some c)) h) ∧
        FreshFor n m (S.foldl (fun hh c => addH hh cref (some c)) h) cref := by
  intro S
  induction S with
  | nil =>
    intro h hf
    exact ⟨presBelow_refl (le_trans hf.2.2.1 (le_of_lt hf.2.2.2))
      (le_trans hf.1 (le_of_lt hf.2.1)), hf⟩
  | cons c S ih =>
    intro h hf
    rw [List.foldl_cons]
    obtain ⟨pa, fa⟩ := addH_ok hf (some c)
    obtain ⟨pb, fb⟩ := ih _ fa
    exact ⟨presBelow_trans pa pb, fb⟩

theorem pairsFoldH_ok {n m cref bref : Nat} :
    ∀ (S : List Cmd) (h : Heap), FreshFor n m h cref →
      PresBelow n m h (S.foldl (fun hh c =>
        addH (addH hh cref (some c)) cref
          ((commandsOfH hh bref).find? (fun d => cmdEq d c))) h) ∧
      FreshFor n m (S.foldl (fun hh c =>
        addH (addH hh cref (some c)) cref
          ((commandsOfH hh bref).find? (fun d => cmdEq d c))) h) cref := by
  intro S
  induction S with
  | nil =>
    intro h hf
    exact ⟨presBelow_refl (le_trans hf.2.2.1 (le_of_lt hf.2.2.2))
      (le_trans hf.1 (le_of_lt hf.2.1)), hf⟩
  | cons c S ih =>
    intro h hf
    rw [List.foldl_cons]
    obtain ⟨pa, fa⟩ := addH_ok hf (some c)
    obtain ⟨pb, fb⟩ := addH_ok fa
      ((commandsOfH h bref).find? (fun d => cmdEq d c))
    obtain ⟨pc, fc⟩ := ih _ fb
    exact ⟨presBelow_trans (presBelow_trans pa pb) pc, fc⟩

theorem intersectH_ok {n m : Nat} {h : Heap} {aref bref : Nat} {dup : Bool}
    (hn : n ≤ h.lists.length) (hm : m ≤ h.sets.length) :
    PresBelow n m h (intersectH h aref bref dup).1 ∧
      FreshFor n m (intersectH h aref bref dup).1
        (intersectH h aref bref dup).2 := by
  obtain ⟨p0, f0⟩ := @copyThis_ok n m h aref hn hm
  simp only [intersectH]
  split
  · obtain ⟨p1, f1⟩ := @pairsFoldH_ok n m (copyThisH h aref).2 bref _ _ f0
    exact ⟨presBelow_trans p0 p1, f1⟩
  · obtain ⟨p1, f1⟩ := repoint_ok
      (X := (commandsOfH (copyThisH h aref).1 aref).filter
        (fun c => keyMemB (commandsOfH (copyThisH h aref).1 bref) c)) f0
    exact ⟨presBelow_trans p0 p1, f1⟩

theorem mergeDispatchH_ok {n m : Nat} {h : Heap} {aref bref : Nat}
    (hn : n ≤ h.lists.length) (hm : m ≤ h.sets.length) :
    PresBelow n m h (mergeDispatchH h aref bref).1 ∧
      FreshFor n m (mergeDispatchH h aref bref).1
        (mergeDispatchH h aref bref).2 := by
  unfold mergeDispatchH
  split_ifs
  · exact intersectH_ok hn hm
  · exact replaceH_ok hn hm
  · exact removeH_ok hn hm
  · exact unionH_ok hn hm
  · exact intersectH_ok hn hm
  · exact replaceH_ok hn hm
  · exact removeH_ok hn hm
  · exact unionH_ok hn hm

theorem mergeH_ok {n m : Nat} {h : Heap} {aref bref : Nat}
    (hn : n ≤ h.lists.length) (hm : m ≤ h.sets.length) :
    PresBelow n m h (mergeH h aref bref).1 ∧
      FreshFor n m (mergeH h aref bref).1 (mergeH h aref bref).2 := by
  obtain ⟨p0, f0⟩ := @mergeDispatchH_ok n m h aref bref hn hm
  have hsr : n ≤ ({ readSetH (mergeDispatchH h aref bref).1
      (mergeDispatchH h aref bref).2 with
      actual_mergetype := mergeMtH h aref bref } : SetRec).commandsRef :=
    f0.2.2.1
  have hsl : ({ readSetH (mergeDispatchH h aref bref).1
      (mergeDispatchH h aref bref).2 with
      actual_mergetype := mergeMtH h aref bref } : SetRec).commandsRef <
      (mergeDispatchH h aref bref).1.lists.length := f0.2.2.2
  have hw := writeSet_ok f0.1 f0.2.1 p0.1 p0.2.1 hsr hsl
  obtain ⟨p2, f2⟩ := sysFoldH_ok _ _ hw.2
  exact ⟨presBelow_trans (presBelow_trans p0 hw.1) p2, f2⟩

/-- Claim C6: a merge with the right operand present mutates neither
input set object — both records and both referenced command lists read
back unchanged — and the returned set is a freshly allocated object
distinct from both operands. -/
theorem c6_merge_frame (h : Heap) (aref bref : Nat)
    (ha : aref < h.sets.length) (hb : bref < h.sets.length)
    (hla : (readSetH h aref).commandsRef < h.lists.length)
    (hlb : (readSetH h bref).commandsRef < h.lists.length) :
    readSetH (mergeH h aref bref).1 aref = readSetH h aref ∧
    readSetH (mergeH h aref bref).1 bref = readSetH h bref ∧
    commandsOfH (mergeH h aref bref).1 aref = commandsOfH h aref ∧
    commandsOfH (mergeH h aref bref).1 bref = commandsOfH h bref ∧
    (mergeH h aref bref).2 ≠ aref ∧ (mergeH h aref bref).2 ≠ bref := by
  obtain ⟨p, f⟩ := @mergeH_ok h.lists.length h.sets.length h aref bref
    (le_refl h.lists.length) (le_refl h.sets.length)
  have hsa : readSetH (mergeH h aref bref).1 aref = readSetH h aref := by
    unfold readSetH
    rw [p.2.2.2 aref ha]
  have hsb : readSetH (mergeH h aref bref).1 bref = readSetH h bref := by
    unfold readSetH
    rw [p.2.2.2 bref hb]
  have hca : commandsOfH (mergeH h aref bref).1 aref = commandsOfH h aref := by
    unfold commandsOfH
    rw [hsa]
    unfold readListH
    rw [p.2.2.1 _ hla]
  have hcb : commandsOfH (mergeH h aref bref).1 bref = commandsOfH h bref := by
    unfold commandsOfH
    rw [hsb]
    unfold readListH
    rw [p.2.2.1 _ hlb]
  have hfm := f.1
  exact ⟨hsa, hsb, hca, hcb, by omega, by omega⟩

/-- Claim C6 witness: a concrete two-set heap (priorities 0 and 1,
Remove policy on the right) merges into a fresh third object leaving
both inputs intact. -/
theorem c6_merge_frame_witness :
    readSetH (mergeH c6Heap 0 1).1 0 = readSetH c6Heap 0 ∧
    readSetH (mergeH c6Heap 0 1).1 1 = readSetH c6Heap 1 ∧
    commandsOfH (mergeH c6Heap 0 1).1 0 = commandsOfH c6Heap 0 ∧
    commandsOfH (mergeH c6Heap 0 1).1 1 = commandsOfH c6Heap 1 ∧
    (mergeH c6Heap 0 1).2 ≠ 0 ∧ (mergeH c6Heap 0 1).2 ≠ 1 :=
  c6_merge_frame c6Heap 0 1 (by decide) (by decide) (by decide) (by decide)
